import Mathlib

/-!
Verification of the pypacker layered packet engine against its
natural-language specification.

The development shallowly embeds the parts of the source that the claims
are about:

* `pypacker/pypacker.py`   — the generic `Packet` engine: construction from
  bytes (`__init__` + `_dissect`), header caching and packing
  (`_pack_header`, `_unpack`, `_update_header_format`), serialization
  (`bin`), body handling (`_set_body_bytes`, `_init_handler`), change flags
  (`_reset_changed`), navigation (`_get_bodyhandler`, `_highest_layer`,
  `dissect_full`) and the MAC / IPv4 / DNS string codecs.
* `pypacker/pypacker_meta.py` — the synthesized simple-field accessors
  (`setfield_simple`, `getfield_simple`) and the class-level initial state.
* `pypacker/layer4/udp.py`  — the UDP protocol: `_dissect`, `_calc_sum`,
  the port handler table loaded by `load_handler`.
* `pypacker/layer12/radiotap.py` — the Radiotap protocol: `_dissect` with
  FCS detection and the FCS-appending `bin`.

Bytes are modeled as `List Nat`; every byte produced by the source is
`< 256`.  Python exceptions are modeled with `Except PyErr` (state mutated
before a raise is preserved, as in Python).  Machine-integer packing is
modeled with explicit range checks (`struct.pack` raises on out-of-range
values).
-/

namespace Pypacker

/-- Byte strings of the source are lists of naturals (each `< 256`). -/
abbrev Bytes := List Nat

/-- Python slice `l[a:b]` for `0 ≤ a ≤ b`: take `b`, then drop `a`
(out-of-range indices clamp, as in Python). -/
def pySlice (l : Bytes) (a b : Nat) : Bytes := (l.take b).drop a

/-- Big-endian bytes of `n` in `w` bytes (the payload of `struct.pack` for a
`w`-byte unsigned field once the range check passed). -/
def beBytes : Nat → Nat → Bytes
  | 0, _ => []
  | w + 1, n => beBytes w (n / 256) ++ [n % 256]

/-- Big-endian value of a byte string (`struct.unpack` of an unsigned field). -/
def beVal (b : Bytes) : Nat := b.foldl (fun a c => 256 * a + c) 0

/-- `struct.pack` of one unsigned big-endian field of byte width `w`:
`None` models the `struct.error` raised on an out-of-range value. -/
def packField (w n : Nat) : Option Bytes :=
  if n < 256 ^ w then some (beBytes w n) else none

/-- `struct.pack` of a whole format: all fields are packed or the call
raises (`none`). The value count must match the format, as in `struct`. -/
def packFields : List Nat → List Nat → Option Bytes
  | [], [] => some []
  | w :: ws, v :: vs =>
    match packField w v, packFields ws vs with
    | some b, some r => some (b ++ r)
    | _, _ => none
  | _, _ => none

/-- `struct.unpack` of a whole format on a byte string of matching size:
split the bytes by the field widths and read each field big-endian. -/
def unpackFields : List Nat → Bytes → List Nat
  | [], _ => []
  | w :: ws, b => beVal (b.take w) :: unpackFields ws (b.drop w)

/-- Pointwise range condition for a value vector against a width vector. -/
def valsInRange : List Nat → List Nat → Bool
  | [], [] => true
  | w :: ws, v :: vs => decide (v < 256 ^ w) && valsInRange ws vs
  | _, _ => false

/-! ## Flat packet state

`PState` embeds the per-instance attributes of `Packet`
(`pypacker/pypacker.py` together with the class-level initialization in
`pypacker_meta.py` `MetaPacket.__new__`) for a protocol whose header fields
are simple static fields, all active (this covers UDP, and Radiotap's four
simple fields; the Radiotap `flags` TriggerList is carried separately in
`RtapState`).  Field slots (`_sport`, ...) are a list of values in schema
order; an instantiated upper layer is represented only by `bodytypename`
(the recursive body case is the layered model `LPkt` further below). -/

/-- Python exceptions that the modeled code can raise. -/
inductive PyErr where
  | typeError
  | structError
  | attributeError
deriving Repr, DecidableEq

instance {e a : Type} [DecidableEq e] [DecidableEq a] : DecidableEq (Except e a) := fun x y =>
  match x, y with
  | .ok v, .ok w =>
    if h : v = w then isTrue (by rw [h]) else isFalse (by intro hc; cases hc; exact h rfl)
  | .error v, .error w =>
    if h : v = w then isTrue (by rw [h]) else isFalse (by intro hc; cases hc; exact h rfl)
  | .ok _, .error _ => isFalse (by intro hc; cases hc)
  | .error _, .ok _ => isFalse (by intro hc; cases hc)

structure PState where
  /-- `_header_cached` -/
  header_cached : Bytes
  /-- `_header_len` -/
  header_len : Nat
  /-- `_header_changed` -/
  header_changed : Bool
  /-- `_header_format_changed` -/
  header_format_changed : Bool
  /-- `_body_bytes` (`none` = Python `None`, set when a handler is present) -/
  body_bytes : Option Bytes
  /-- `_bodytypename` (`none` = Python `None`; class ids stand in for names) -/
  bodytypename : Option Nat
  /-- `_lazy_handler_data` reduced to `(handler class id, buffer)` -/
  lazy_handler_data : Option (Nat × Bytes)
  /-- `_body_changed` -/
  body_changed : Bool
  /-- `_unpacked`: `none` = Python `None` (pre-dissect), else `some b` -/
  unpacked : Option Bool
  /-- `_dissect_error` -/
  dissect_error : Bool
  /-- the shadowed simple-field slots `_name`, in schema order -/
  fields : List Nat
deriving Repr, DecidableEq

/-- A protocol's simple static header schema: byte widths (from the format
characters of `__hdr__`, byte order `>`) and default values. -/
structure Schema where
  widths : List Nat
  defaults : List Nat
deriving Repr

/-- `Schema.size`: `struct.Struct(...).size` of the class header format. -/
def Schema.size (sc : Schema) : Nat := sc.widths.sum

/-- Class-level state built by `MetaPacket.__new__`: defaults stored in the
field slots, `_header_cached = _header_format.pack(*defaults)`, all change
flags `False`, `_body_bytes = b""`, `_unpacked = None`. -/
def initState (sc : Schema) : PState :=
  { header_cached := (packFields sc.widths sc.defaults).getD []
    header_len := sc.size
    header_changed := false
    header_format_changed := false
    body_bytes := some []
    bodytypename := none
    lazy_handler_data := none
    body_changed := false
    unpacked := none
    dissect_error := false
    fields := sc.defaults }

/-- `Packet._update_header_format` for a header of static, always-active
simple fields: the recomputed format equals the class format, so only
`_header_len` is refreshed and the flag is cleared. -/
def update_header_format (sc : Schema) (s : PState) : PState :=
  { s with header_len := sc.size, header_format_changed := false }

/-- `Packet._unpack`: sets `_unpacked = True` first, refreshes the format if
needed, then decodes the cached header bytes into the field slots.  The
returned `Bool` is `false` when `struct.unpack` fails on a size mismatch and
the raised exception propagates (the state mutated so far persists). -/
def unpack (sc : Schema) (s : PState) : PState × Bool :=
  let s := { s with unpacked := some true }
  let s := if s.header_format_changed then update_header_format sc s else s
  if s.header_cached.length = sc.size then
    ({ s with fields := unpackFields sc.widths s.header_cached }, true)
  else
    (s, false)

/-- `Packet._pack_header`: answer `.ok (some bytes)` on success,
`.ok none` when `struct.pack` failed on an out-of-range value (the method
returns Python `None`), `.error` when `_unpack` raised. -/
def pack_header (sc : Schema) (s : PState) : Except PyErr (Option Bytes) × PState :=
  if s.header_changed = false then
    (.ok (some s.header_cached), s)
  else
    let res : PState × Bool :=
      if s.unpacked ≠ some true then unpack sc s
      else if s.header_format_changed then (update_header_format sc s, true)
      else (s, true)
    match res with
    | (s, false) => (.error .structError, s)
    | (s, true) =>
      match packFields sc.widths s.fields with
      | some bts => (.ok (some bts), { s with header_cached := bts, header_changed := false })
      | none => (.ok none, s)

/-- `Packet._reset_changed`. -/
def reset_changed (s : PState) : PState :=
  { s with header_changed := false, body_changed := false }

/-- The handler-clearing part of `Packet._set_bodyhandler(None)` (the old
handler object's back pointer is also cleared there; it is not part of this
packet's state). -/
def set_bodyhandler_none (s : PState) : PState :=
  { s with bodytypename := none, body_bytes := some [],
           body_changed := true, lazy_handler_data := none }

/-- `Packet._set_body_bytes` (no change listeners are registered in the
modeled states, so `_notify_changelistener` is a no-op). -/
def set_body_bytes (s : PState) (value : Bytes) : PState :=
  let s := if s.bodytypename ≠ none then set_bodyhandler_none s else s
  { s with body_bytes := some value, body_changed := true, lazy_handler_data := none }

/-- `Packet._init_handler` during dissection (`_target_unpack_clz is None`):
an empty buffer leads to an empty body; an unknown discriminator (`KeyError`)
stores the buffer as raw body bytes; otherwise lazy handler data is recorded.
`reg` is `Packet._handler[self.__class__.__name__]`. -/
def init_handler (reg : Nat → Option Nat) (s : PState) (hndl_type : Nat)
    (buffer : Bytes) : PState :=
  if buffer = [] then s
  else
    match reg hndl_type with
    | some cid =>
      { s with lazy_handler_data := some (cid, buffer), bodytypename := some cid,
               body_bytes := none, body_changed := true }
    | none => set_body_bytes s buffer

/-- `Packet.__init__(buf)` around a protocol's `_dissect`: on success the
dissector's state effects are kept, the header cache is sliced from the
input, the body falls back to the remaining bytes when the dissector did not
change it, and the change flags are reset; a raising dissector sets
`_dissect_error` instead. `_unpacked` becomes `False` either way. -/
def mk_packet (sc : Schema) (dissect : PState → Bytes → Option (PState × Nat))
    (buf : Bytes) : PState :=
  let s0 := initState sc
  let s :=
    match dissect s0 buf with
    | some (s, header_len) =>
      let s := { s with header_len := header_len, header_cached := buf.take header_len }
      if s.body_changed = false then { s with body_bytes := some (buf.drop header_len) } else s
    | none => { s0 with dissect_error := true }
  let s := reset_changed s
  { s with unpacked := some false }

/-- `Packet._get_bodybytes` on a flat state: lazy handler bytes, else raw
bytes; `none` models the cases that leave this flat model (an instantiated
upper layer, whose bytes come from a recursive call, or `_body_bytes = None`). -/
def get_bodybytes (s : PState) : Option Bytes :=
  match s.lazy_handler_data with
  | some (_, b) => some b
  | none =>
    match s.bodytypename with
    | some _ => none
    | none => s.body_bytes

/-- `Packet.bin` (the engine default; `update_auto_fields` only matters for
protocol overrides).  The body is resolved first, then `_pack_header` runs,
then `_reset_changed`, and only then `header_tmp + body_tmp` is evaluated —
so a `None` header raises `TypeError` *after* the flags were cleared. -/
def bin (sc : Schema) (s : PState) : Except PyErr Bytes × PState :=
  let bodyE : Except PyErr Bytes :=
    match get_bodybytes s with
    | some b => .ok b
    | none => .error .typeError
  match bodyE with
  | .error e => (.error e, s)
  | .ok body =>
    match pack_header sc s with
    | (.error e, s) => (.error e, s)
    | (.ok hOpt, s) =>
      let s := reset_changed s
      match hOpt with
      | none => (.error .typeError, s)
      | some h => (.ok (h ++ body), s)

/-- `setfield_simple` from `pypacker_meta.py` for a static field that stays
active (the value written is not `None` and the field was active): unpack on
demand, write the slot, set `_header_changed`.  `false` means `_unpack`
raised (the write does not happen; partial mutation persists). -/
def set_field (sc : Schema) (s : PState) (i v : Nat) : PState × Bool :=
  match (if s.unpacked = some false then unpack sc s else (s, true)) with
  | (s, false) => (s, false)
  | (s, true) => ({ s with fields := s.fields.set i v, header_changed := true }, true)

/-- `getfield_simple` from `pypacker_meta.py`: unpack on demand, then read
the slot.  `none` means `_unpack` raised. -/
def get_field (sc : Schema) (s : PState) (i : Nat) : PState × Option Nat :=
  match (if s.unpacked = some false then unpack sc s else (s, true)) with
  | (s, false) => (s, none)
  | (s, true) => (s, some (s.fields.getD i 0))

/-! ## UDP (`pypacker/layer4/udp.py`) -/

/-- `UDP.__hdr__ = (("sport","H",0xdead), ("dport","H",0), ("ulen","H",8),
("sum","H",0))`, byte order `>`. -/
def udpSchema : Schema := ⟨[2, 2, 2, 2], [0xdead, 0, 8, 0]⟩

/-- Field indices of the UDP schema. -/
def UDP_SPORT : Nat := 0
def UDP_DPORT : Nat := 1
def UDP_ULEN : Nat := 2
def UDP_SUM : Nat := 3

/-- `struct.unpack(">H", b)[0]`: raises unless `b` is exactly two bytes. -/
def u16be : Bytes → Option Nat
  | [a, b] => some (256 * a + b)
  | _ => none

/-- `struct.unpack("<H", b)[0]`: raises unless `b` is exactly two bytes. -/
def u16le : Bytes → Option Nat
  | [a, b] => some (a + 256 * b)
  | _ => none

/-- `struct.unpack(">I", b)[0]`: raises unless `b` is exactly four bytes. -/
def u32be : Bytes → Option Nat
  | [a, b, c, d] => some (((a * 256 + b) * 256 + c) * 256 + d)
  | _ => none

/-- `Packet._handler["UDP"]` as loaded by `load_handler` at the bottom of
`udp.py` (tuple keys are flattened into one entry per id).  Class ids:
Telnet 0, DNS 1, DHCP 2, Pmap 3, NTP 4, Radius 5, RTP 6, SIP 7. -/
def udp_handler : Nat → Option Nat
  | 23 => some 0
  | 53 => some 1
  | 5353 => some 1
  | 67 => some 2
  | 68 => some 2
  | 111 => some 3
  | 123 => some 4
  | 1812 => some 5
  | 1813 => some 5
  | 1645 => some 5
  | 1646 => some 5
  | 5004 => some 6
  | 5005 => some 6
  | 5060 => some 7
  | 5061 => some 7
  | _ => none

/-- `UDP._dissect`: read both ports (raising outside the `try`, hence
`none`, when the buffer is shorter than 4 bytes), pick the first port
registered in the handler table (`[x for x in ports if x in ...][0]`; an
`IndexError` when none matches is swallowed), dispatch on `buf[8:]`, and
report a header length of 8. -/
def udp_dissect (s : PState) (buf : Bytes) : Option (PState × Nat) := do
  let sport ← u16be (pySlice buf 0 2)
  let dport ← u16be (pySlice buf 2 4)
  let s :=
    match ([sport, dport].filter (fun x => (udp_handler x).isSome)).head? with
    | some htype => init_handler udp_handler s htype (buf.drop 8)
    | none => s
  some (s, 8)

/-- `UDP(buf)`. -/
def mk_udp (buf : Bytes) : PState := mk_packet udpSchema udp_dissect buf

/-- `UDP()` (keyword/empty construction: class defaults, `_unpacked = True`). -/
def mk_udp_kw : PState := { initState udpSchema with unpacked := some true }

/-! ## Internet checksum

The module `pypacker/checksum.py` referenced by `udp.py` is not under
src/, so `in_cksum` is modelled from the spec. -/

/-- The 16-bit big-endian words of a byte string, an odd trailing byte
padded with a zero low byte. -/
def in_cksum_words : Bytes → List Nat
  | [] => []
  | [a] => [a * 256]
  | a :: b :: rest => (a * 256 + b) :: in_cksum_words rest

/-- End-around carry folding of a word sum into 16 bits.  The first
argument is fuel; each step with `n ≥ 65536` strictly decreases `n`, so
fuel `n` always suffices. -/
def fold_carries : Nat → Nat → Nat
  | 0, n => n
  | fuel + 1, n => if n < 65536 then n else fold_carries fuel (n % 65536 + n / 65536)

/-- Modelled from the spec: `checksum.in_cksum` (module `checksum.py` is
missing from src/) — "compute the 16-bit one's-complement sum over
`pseudo_header || this_header_with_sum_zero || body`"; the one's-complement
sum adds the 16-bit words end-around and complements the result in 16 bits. -/
def in_cksum (data : Bytes) : Nat :=
  let t := (in_cksum_words data).sum
  65535 - fold_carries t t

/-- `struct.pack` of one `"Ns"` field: a shorter byte string is zero-padded
to `n`, a longer one truncated. -/
def pack_bytes (n : Nat) (b : Bytes) : Bytes :=
  b.take n ++ List.replicate (n - b.length) 0

/-- The IP pseudo-header built inside `UDP._calc_sum` (lines 88–91):
`pack(">4s4sBBH", src, dst, 0, 17, l)` when `len(src) == 4`, else
`pack(">16s16sxBH", src, dst, 17, l)`.  Both place a single zero byte
before the protocol number 17. -/
def udp_pseudoheader (src dst : Bytes) (l : Nat) : Bytes :=
  if src.length = 4 then
    pack_bytes 4 src ++ pack_bytes 4 dst ++ [0] ++ [17] ++ beBytes 2 l
  else
    pack_bytes 16 src ++ pack_bytes 16 dst ++ [0] ++ [17] ++ beBytes 2 l

/-- `UDP._calc_sum`.  `lower` is `(self._lower_layer.src,
self._lower_layer.dst)` when the lower layer has those attributes, `none`
when reading them raises `AttributeError` (caught: nothing happens).  The
returned `Bool` is `false` when an exception other than
`AttributeError`/`struct.error` propagates (a raising `_unpack`, or the
`TypeError` from `None + body` after a failed header pack); `struct.error`
from packing an oversized length is caught and leaves the checksum at the
zero written before it. -/
def udp_calc_sum (lower : Option (Bytes × Bytes)) (s : PState) : PState × Bool :=
  match lower with
  | none => (s, true)
  | some (src, dst) =>
    match set_field udpSchema s UDP_SUM 0 with
    | (s, false) => (s, false)
    | (s, true) =>
      match pack_header udpSchema s with
      | (.error _, s) => (s, false)
      | (.ok none, s) => (s, false)
      | (.ok (some h), s) =>
        match get_bodybytes s with
        | none => (s, false)
        | some bb =>
          let udp_bin := h ++ bb
          if udp_bin.length < 65536 then
            let ps := udp_pseudoheader src dst udp_bin.length
            let csum := in_cksum (ps ++ udp_bin)
            let csum := if csum = 0 then 65535 else csum
            set_field udpSchema s UDP_SUM csum
          else
            (s, true)

/-! ## Radiotap (`pypacker/layer12/radiotap.py`) -/

/-- `Radiotap.__hdr__`'s simple fields: `version "B" 0`, `pad "B" 0`,
`len "H" 0x0800`, `present_flags "I" 0` (plus the `flags` TriggerList,
carried in `RtapState`). -/
def rtapSchema : Schema := ⟨[1, 1, 2, 4], [0, 0, 0x0800, 0]⟩

/-- Index of `present_flags` in `rtapSchema`. -/
def RT_PRESENT_FLAGS : Nat := 3

/-- `Packet._handler["Radiotap"]` from `load_handler(Radiotap, {0:
IEEE80211})`; the IEEE80211 class gets id 100. -/
def rtap_handler : Nat → Option Nat
  | 0 => some 100
  | _ => none

/-- A `Radiotap` instance: the engine state for the simple fields plus the
`flags` TriggerList placeholder bytes (`_flags = [bts, callback]` from
`_init_triggerlist`) and the `_fcs` attribute (`none` until assigned;
the `fcs` property then answers `b""`). -/
structure RtapState where
  core : PState
  flags_tl : Bytes
  fcs : Option Bytes
deriving Repr, DecidableEq

/-- `Packet._init_triggerlist` for the `flags` field: store the placeholder
and set `_header_format_changed`. -/
def rtap_init_triggerlist (rs : RtapState) (bts : Bytes) : RtapState :=
  { rs with flags_tl := bts,
            core := { rs.core with header_format_changed := true } }

/-- `Radiotap._dissect` (bit masks big-endian as in the source:
`FLAGS_MASK = 0x02000000`, `TSFT_MASK = 0x01000000`): detect a trailing FCS
via the flags byte's `0x10` bit, shorten `pos_end` to `-4` in that case,
read the little-endian header length from `buf[2:4]`, register the `flags`
TriggerList on `buf[8:hdr_len]` and dispatch type 0 on
`buf[hdr_len:pos_end]`.  `none` models a raising dissector (short buffer or
`buf[off]` out of range). -/
def rtap_dissect (rs : RtapState) (buf : Bytes) : Option (RtapState × Nat) := do
  let pf ← u32be (pySlice buf 4 8)
  let rs := { rs with core := { rs.core with
    fields := rs.core.fields.set RT_PRESENT_FLAGS pf } }
  let fcsInfo ←
    if pf &&& 0x02000000 = 0x02000000 then
      let off := if pf &&& 0x01000000 = 0x01000000 then 8 else 0
      if off < buf.length then
        if buf.getD off 0 &&& 0x10 ≠ 0 then
          pure (some (buf.drop (buf.length - 4)))
        else
          pure none
      else
        none
    else
      pure (none : Option Bytes)
  let rs := match fcsInfo with
    | some fcsBytes => { rs with fcs := some fcsBytes }
    | none => rs
  let pos_end := match fcsInfo with
    | some _ => buf.length - 4
    | none => buf.length
  let hdr_len ← u16le (pySlice buf 2 4)
  let rs := rtap_init_triggerlist rs (pySlice buf 8 hdr_len)
  let rs := { rs with core := init_handler rtap_handler rs.core 0 (pySlice buf hdr_len pos_end) }
  some (rs, hdr_len)

/-- `Radiotap(buf)`: the engine `__init__` around `rtap_dissect`. -/
def mk_rtap (buf : Bytes) : RtapState :=
  let rs0 : RtapState := ⟨initState rtapSchema, [], none⟩
  match rtap_dissect rs0 buf with
  | some (rs, header_len) =>
    let c := rs.core
    let c := { c with header_len := header_len, header_cached := buf.take header_len }
    let c := if c.body_changed = false then { c with body_bytes := some (buf.drop header_len) } else c
    { rs with core := { reset_changed c with unpacked := some false } }
  | none =>
    { rs0 with core :=
      { reset_changed rs0.core with unpacked := some false, dissect_error := true } }

/-- `Radiotap.bin`: the engine `bin` plus the trailing `self.fcs` (which is
`b""` while `_fcs` was never assigned). -/
def rtap_bin (rs : RtapState) : Except PyErr Bytes × RtapState :=
  match bin rtapSchema rs.core with
  | (.ok bts, c) => (.ok (bts ++ rs.fcs.getD []), { rs with core := c })
  | (.error e, c) => (.error e, { rs with core := c })

/-- The dispatch expression of `UDP._dissect` line 67:
`[x for x in ports if x in pypacker.Packet._handler[UDP.__name__]][0]`,
`None` standing for the swallowed `IndexError` when no port matches. -/
def udp_select_htype (reg : Nat → Option Nat) (sport dport : Nat) : Option Nat :=
  (([sport, dport].filter (fun x => (reg x).isSome)).head?)

/-- The concrete Radiotap frame refuting C1: FLAGS present flag set, flags
byte `0x10` (FCS detected), header length 8, total length 12 — the slice
between header end and FCS start is empty, so `bin()` emits the FCS twice. -/
def rtap_cx_buf : Bytes := [0x10, 0, 8, 0, 0x02, 0, 0, 0, 0xAA, 0xBB, 0xCC, 0xDD]

/-- The UDP packet refuting C6: keyword construction, then `sport` set to
65536 — one past the range of its `"H"` format. -/
def udp_overflow_state : PState := (set_field udpSchema mk_udp_kw UDP_SPORT 65536).1

/-! ## Claims C2 and C3: the UDP checksum -/

/-- A 16-byte IPv6 source address for the C3 counterexample. -/
def v6_src : Bytes := List.replicate 16 1

/-- A 16-byte IPv6 destination address for the C3 counterexample. -/
def v6_dst : Bytes := List.replicate 16 2

/-- The UDP state of spec scenario 1 (`sport=1234, dport=53, ulen=12`,
body `b"ping"`) used as the C2 witness input. -/
def udp_c2_state : PState :=
  { header_cached := [4, 210, 0, 53, 0, 12, 0, 0]
    header_len := 8
    header_changed := false
    header_format_changed := false
    body_bytes := some [112, 105, 110, 103]
    bodytypename := none
    lazy_handler_data := none
    body_changed := false
    unpacked := some true
    dissect_error := false
    fields := [1234, 53, 12, 0] }

/-! ## Layered model (C8)

`LPkt` is the recursive view of a packet needed by the navigation claims:
the body is raw bytes, lazy handler data, or an attached upper-layer packet
(`Packet._get_bodyhandler` forces the lazy case by instantiating the
handler class on the stored buffer).  A `ClsTable` abstracts the per-class
dissectors through the engine contract of `_dissect`/`_init_handler`:
header length, the `_init_handler(d, buffer)` call a dissector makes (if
any), and the process-wide registry `Packet._handler`.  Fuel bounds the
layer depth; dissection in this model never raises (a raising upper layer
is demoted to raw bytes before these functions see it). -/

mutual
inductive LBody where
  | raw (b : List Nat)
  | lazy (cid : Nat) (b : List Nat)
  | attached (p : LPkt)
inductive LPkt where
  | mk (cid : Nat) (header : List Nat) (body : LBody)
end

structure ClsTable where
  /-- header length returned by class `c`'s `_dissect` on a buffer -/
  hdrLen : Nat → Bytes → Nat
  /-- the `_init_handler(discriminator, buffer)` call class `c`'s
  `_dissect` makes on a buffer, if any -/
  call : Nat → Bytes → Option (Nat × Bytes)
  /-- `Packet._handler[c][d]` -/
  registry : Nat → Nat → Option Nat

/-- `Class(buf)` in the layered view: slice the header, and give the body
the `_init_handler` semantics — no call or empty buffer leaves raw
remaining bytes, an unknown discriminator stores the handler buffer as raw
bytes, a known one becomes lazy handler data. -/
def instantiate (T : ClsTable) (c : Nat) (buf : Bytes) : LPkt :=
  let hl := T.hdrLen c buf
  match T.call c buf with
  | none => .mk c (buf.take hl) (.raw (buf.drop hl))
  | some (d, b) =>
    if b = [] then .mk c (buf.take hl) (.raw (buf.drop hl))
    else
      match T.registry c d with
      | some cid => .mk c (buf.take hl) (.lazy cid b)
      | none => .mk c (buf.take hl) (.raw b)

/-- `Packet._get_bodyhandler`: an attached handler is returned, lazy
handler data is instantiated first, raw bytes mean no upper layer. -/
def lpkt_body_handler (T : ClsTable) : LPkt → Option LPkt
  | .mk _ _ (.raw _) => none
  | .mk _ _ (.lazy cid b) => some (instantiate T cid b)
  | .mk _ _ (.attached p) => some p

/-- `Packet._highest_layer`: walk `body_handler` upward (forcing lazy
layers) until none is left.  `none` = out of fuel. -/
def highest_layer (T : ClsTable) : Nat → LPkt → Option LPkt
  | 0, _ => none
  | n + 1, p =>
    match lpkt_body_handler T p with
    | none => some p
    | some q => highest_layer T n q

/-- The state effect of `Packet.dissect_full`: force every lazy layer into
an attached one, recursively (the field accesses it also performs do not
change the layer structure).  `none` = out of fuel. -/
def dissect_full (T : ClsTable) : Nat → LPkt → Option LPkt
  | 0, _ => none
  | n + 1, .mk c h b =>
    match b with
    | .raw bb => some (.mk c h (.raw bb))
    | .lazy cid bb =>
      (dissect_full T n (instantiate T cid bb)).map (fun q => .mk c h (.attached q))
    | .attached p =>
      (dissect_full T n p).map (fun q => .mk c h (.attached q))

/-- The value the expression `p.dissect_full()` evaluates to: the method
(`pypacker.py` lines 443–454) has no `return` statement, so the call
returns Python `None` for every packet. -/
def dissect_full_ret (_T : ClsTable) (_n : Nat) (_p : LPkt) : Option LPkt := none

/-- Python attribute access `x.highest_layer` on a value that may be
`None`: on `None` it raises `AttributeError`. -/
def py_highest_layer (T : ClsTable) (n : Nat) :
    Option LPkt → Except PyErr (Option LPkt)
  | none => .error .attributeError
  | some p => .ok (highest_layer T n p)

/-- A one-class table (no upper layers) for the C8 counterexample. -/
def cx_table : ClsTable := ⟨fun _ _ => 8, fun _ _ => none, fun _ _ => none⟩

/-- A two-layer table for the C8 witness: class 0 dispatches discriminator
7 on the bytes after its 4-byte header; the registry maps it to class 1. -/
def cx_table2 : ClsTable :=
  ⟨fun _ _ => 4,
   fun c b => if c = 0 then some (7, b.drop 4) else none,
   fun c d => if c = 0 ∧ d = 7 then some 1 else none⟩

/-! ## Claim C7: the header-cache invariant

Operations on one packet (the fragment the claim's sources cover): simple
field writes (`setfield_simple`), simple field reads (`getfield_simple`,
which unpacks on demand), `bin()`, and body-bytes assignment. -/

inductive POp where
  | setF (i v : Nat)
  | getF (i : Nat)
  | binOp
  | setBody (b : Bytes)

/-- One operation on a packet. -/
def step (sc : Schema) (s : PState) : POp → PState
  | .setF i v => (set_field sc s i v).1
  | .getF i => (get_field sc s i).1
  | .binOp => (bin sc s).2
  | .setBody b => set_body_bytes s b

/-- A sequence of operations. -/
def run (sc : Schema) (s : PState) (ops : List POp) : PState :=
  ops.foldl (step sc) s

/-- The current header field values as observed through the synthesized
accessors: the slots once unpacked, otherwise the decoded header cache
(reading a field in the not-yet-unpacked state decodes the cache first). -/
def obs_fields (sc : Schema) (s : PState) : List Nat :=
  if s.unpacked = some true then s.fields
  else unpackFields sc.widths s.header_cached

/-- An operation is in range when any written value fits its field's
format (what `struct.pack` accepts). -/
def pop_ok (sc : Schema) : POp → Prop
  | .setF i v => i < sc.widths.length ∧ v < 256 ^ (sc.widths.getD i 0)
  | _ => True

/-- Well-formedness carried through the operations: slot vector matches
the schema and is in range, the cache has format size and is made of
bytes, the format is unchanged (static fields), dissection has finished,
exactly one body representation is active, and the C7 invariant itself. -/
def WF (sc : Schema) (s : PState) : Prop :=
  s.fields.length = sc.widths.length ∧
  valsInRange sc.widths s.fields = true ∧
  s.header_cached.length = sc.size ∧
  (∀ x ∈ s.header_cached, x < 256) ∧
  s.header_format_changed = false ∧
  (s.unpacked = some true ∨ s.unpacked = some false) ∧
  (s.lazy_handler_data = none → s.bodytypename = none ∧ s.body_bytes.isSome = true) ∧
  (s.header_changed = false →
    packFields sc.widths (obs_fields sc s) = some s.header_cached)

/-! ## Claim C9: the MAC / IPv4 / DNS string codecs

Python strings are lists of code points, bytes are lists of naturals.
`str.encode`/`bytes.decode` are UTF-8; the decoder below accepts any
`0x80–0xBF` continuation byte (Python additionally rejects overlong forms,
surrogates and the lead bytes `C0`/`C1`; the theorems only evaluate it on
ASCII, where the two agree). -/

/-- `chr(c).encode()`: the UTF-8 bytes of one code point. -/
def utf8EncodeChar (c : Nat) : List Nat :=
  if c < 0x80 then [c]
  else if c < 0x800 then [0xC0 + c / 64, 0x80 + c % 64]
  else if c < 0x10000 then
    [0xE0 + c / 4096, 0x80 + c / 64 % 64, 0x80 + c % 64]
  else
    [0xF0 + c / 262144, 0x80 + c / 4096 % 64, 0x80 + c / 64 % 64, 0x80 + c % 64]

/-- `str.encode()`. -/
def utf8Encode (s : List Nat) : List Nat := (s.map utf8EncodeChar).flatten

/-- One step of the UTF-8 decoder: the first code point and the remaining
bytes, `none` on a malformed head. -/
def utf8DecodeChar1 : List Nat → Option (Nat × List Nat)
  | [] => none
  | c :: rest =>
    if c < 0x80 then some (c, rest)
    else if 0xC0 ≤ c ∧ c < 0xE0 then
      match rest with
      | c2 :: r =>
        if 0x80 ≤ c2 ∧ c2 < 0xC0 then
          some ((c - 0xC0) * 64 + (c2 - 0x80), r)
        else none
      | [] => none
    else if 0xE0 ≤ c ∧ c < 0xF0 then
      match rest with
      | c2 :: c3 :: r =>
        if (0x80 ≤ c2 ∧ c2 < 0xC0) ∧ (0x80 ≤ c3 ∧ c3 < 0xC0) then
          some (((c - 0xE0) * 64 + (c2 - 0x80)) * 64 + (c3 - 0x80), r)
        else none
      | _ => none
    else if 0xF0 ≤ c ∧ c < 0xF8 then
      match rest with
      | c2 :: c3 :: c4 :: r =>
        if (0x80 ≤ c2 ∧ c2 < 0xC0) ∧ (0x80 ≤ c3 ∧ c3 < 0xC0) ∧
            (0x80 ≤ c4 ∧ c4 < 0xC0) then
          some ((((c - 0xF0) * 64 + (c2 - 0x80)) * 64 + (c3 - 0x80)) * 64 +
            (c4 - 0x80), r)
        else none
      | _ => none
    else none

/-- The decoder loop; the fuel argument is covered by the byte count since
every step consumes at least one byte. -/
def utf8DecodeF : Nat → List Nat → Option (List Nat)
  | _, [] => some []
  | 0, _ :: _ => none
  | fuel + 1, b =>
    match utf8DecodeChar1 b with
    | some (c, rest) => (utf8DecodeF fuel rest).map (c :: ·)
    | none => none

/-- `bytes.decode()` (UTF-8, see the section comment for the caveat). -/
def utf8Decode (b : List Nat) : Option (List Nat) := utf8DecodeF b.length b

/-- `str.split(sep)` for a one-character separator. -/
def pySplit (sep : Nat) : List Nat → List (List Nat)
  | [] => [[]]
  | c :: rest =>
    if c = sep then [] :: pySplit sep rest
    else
      match pySplit sep rest with
      | [] => [[c]]
      | g :: gs => (c :: g) :: gs

/-- `sep.join(parts)` for a one-string separator. -/
def pyJoin (sep : List Nat) : List (List Nat) → List Nat
  | [] => []
  | [p] => p
  | p :: q :: ps => p ++ sep ++ pyJoin sep (q :: ps)

/-- One uppercase hexadecimal digit (`"%X"`). -/
def hexDigit (d : Nat) : Nat := if d < 10 then 48 + d else 55 + d

/-- `"%02X" % n` for a byte value. -/
def hex2 (n : Nat) : List Nat := [hexDigit (n / 16 % 16), hexDigit (n % 16)]

/-- The value of a hexadecimal digit character, `none` for a non-digit. -/
def hexVal (c : Nat) : Option Nat :=
  if 48 ≤ c ∧ c ≤ 57 then some (c - 48)
  else if 65 ≤ c ∧ c ≤ 70 then some (c - 55)
  else if 97 ≤ c ∧ c ≤ 102 then some (c - 87)
  else none

/-- `bytes.fromhex`: pairs of hex digits; odd length or a non-digit raises. -/
def pyFromHex : List Nat → Option Bytes
  | [] => some []
  | a :: b :: rest => do
    let va ← hexVal a
    let vb ← hexVal b
    let r ← pyFromHex rest
    pure ((16 * va + vb) :: r)
  | [_] => none

/-- `mac_bytes_to_str`: `"%02X:%02X:%02X:%02X:%02X:%02X" % unpack_mac(b)`
(`unpack_mac` raises unless `b` has exactly six bytes). -/
def mac_bytes_to_str (b : Bytes) : Option (List Nat) :=
  if b.length = 6 then some (pyJoin [58] (b.map hex2)) else none

/-- The comprehension `[bytes.fromhex(x) for x in parts]`: the whole list,
or the first raised `ValueError`. -/
def fromhex_parts : List (List Nat) → Option (List Bytes)
  | [] => some []
  | p :: ps => do
    let b ← pyFromHex p
    let r ← fromhex_parts ps
    pure (b :: r)

/-- `mac_str_to_bytes`:
`b"".join([bytes.fromhex(x) for x in mac_str.split(":")])`. -/
def mac_str_to_bytes (s : List Nat) : Option Bytes :=
  (fromhex_parts (pySplit 58 s)).map List.flatten

/-- Decimal digits of `n` (`"%d" % n`); the first argument is fuel, which
`n + 1` always covers since the argument shrinks by a factor of ten. -/
def decStrF : Nat → Nat → List Nat
  | 0, _ => []
  | fuel + 1, n => if n < 10 then [48 + n] else decStrF fuel (n / 10) ++ [48 + n % 10]

/-- `"%d" % n`. -/
def decStr (n : Nat) : List Nat := decStrF (n + 1) n

/-- The value of a decimal digit character. -/
def digVal (c : Nat) : Option Nat :=
  if 48 ≤ c ∧ c ≤ 57 then some (c - 48) else none

/-- `int(s)` on a plain digit string (non-digits and the empty string
raise `ValueError`). -/
def pyInt (s : List Nat) : Option Nat :=
  if s = [] then none
  else s.foldl (fun acc c => do let a ← acc; let d ← digVal c; pure (10 * a + d))
    (some 0)

/-- `ip4_bytes_to_str`: `"%d.%d.%d.%d" % unpack_ipv4(b)` (`unpack_ipv4`
raises unless `b` has exactly four bytes). -/
def ip4_bytes_to_str (b : Bytes) : Option (List Nat) :=
  if b.length = 4 then some (pyJoin [46] (b.map decStr)) else none

/-- The comprehension `[int(x) for x in parts]`. -/
def int_parts : List (List Nat) → Option (List Nat)
  | [] => some []
  | p :: ps => do
    let v ← pyInt p
    let r ← int_parts ps
    pure (v :: r)

/-- `ip4_str_to_bytes`: `ips = [int(x) for x in ip_str.split(".")]` then
`pack_ipv4(ips[0], ips[1], ips[2], ips[3])` (extra components are ignored;
fewer than four raise `IndexError`; `"B"` rejects values above 255). -/
def ip4_str_to_bytes (s : List Nat) : Option Bytes := do
  let ips ← int_parts (pySplit 46 s)
  match ips with
  | i0 :: i1 :: i2 :: i3 :: _ =>
    if i0 < 256 ∧ i1 < 256 ∧ i2 < 256 ∧ i3 < 256 then some [i0, i1, i2, i3]
    else none
  | _ => none

/-- The loop of `dns_name_decode`: while `off < len(name)`, decode the
label `name[off : off + name[off-1]]` and advance by its length plus one.
The first argument is fuel; `off` grows by at least one per iteration, so
`len(name) + 1` always covers the loop. -/
def dns_decode_loop : Nat → Bytes → Nat → Option (List (List Nat))
  | 0, _, _ => none
  | fuel + 1, name, off =>
    if off < name.length then do
      let llen := name.getD (off - 1) 0
      let label ← utf8Decode (pySlice name off (off + llen))
      let rest ← dns_decode_loop fuel name (off + llen + 1)
      pure (label :: rest)
    else
      some []

/-- `dns_name_decode`: split the wire form into labels starting at offset
1, then `".".join(labels) + "."`. -/
def dns_name_decode (name : Bytes) : Option (List Nat) :=
  (dns_decode_loop (name.length + 1) name 1).map
    (fun parts => pyJoin [46] parts ++ [46])

/-- `dns_name_encode`: split on `"."`, drop empty parts, emit
`chr(len(label)).encode() + label` per label, terminate with a zero byte
(the leading `b""` in the join contributes nothing). -/
def dns_name_encode (s : List Nat) : Bytes :=
  let labels := ((pySplit 46 s).filter (fun p => p ≠ [])).map utf8Encode
  (labels.map (fun label => utf8EncodeChar label.length ++ label)).flatten ++ [0]

/-- The DNS wire form of a label sequence. -/
def dns_wire (labels : List (List Nat)) : Bytes :=
  (labels.map (fun l => l.length :: l)).flatten ++ [0]

/-- The textual form `dns_name_decode` produces for a label sequence:
dot-joined with a trailing dot. -/
def dns_text (labels : List (List Nat)) : List Nat :=
  pyJoin [46] labels ++ [46]

/-- Well-formed DNS labels for the round-trip: nonempty, at most 127
bytes (`chr(len)` stays one byte), ASCII, and free of the separator. -/
def dns_label_ok (l : List Nat) : Prop :=
  l ≠ [] ∧ l.length ≤ 127 ∧ ∀ c ∈ l, c < 128 ∧ c ≠ 46

/-- The code points of `"www.example.com"` (the docstring example of
`dns_name_encode`). -/
def www_str : List Nat :=
  [119, 119, 119, 46, 101, 120, 97, 109, 112, 108, 101, 46, 99, 111, 109]

theorem beBytes_length (w n : Nat) : (beBytes w n).length = w := by
  induction w generalizing n with
  | zero => rfl
  | succ w ih => simp [beBytes, ih]

theorem beBytes_lt (w n : Nat) : ∀ x ∈ beBytes w n, x < 256 := by
  induction w generalizing n with
  | zero => simp [beBytes]
  | succ w ih =>
    intro x hx
    simp only [beBytes, List.mem_append, List.mem_singleton] at hx
    rcases hx with hx | hx
    · exact ih _ x hx
    · subst hx; exact Nat.mod_lt _ (by norm_num)

theorem beVal_append (a b : Bytes) :
    beVal (a ++ b) = beVal a * 256 ^ b.length + beVal b := by
  induction b using List.reverseRecOn generalizing a with
  | nil => simp [beVal]
  | append_singleton b x ih =>
    have h1 : a ++ (b ++ [x]) = (a ++ b) ++ [x] := by simp
    have h2 : ∀ l : Bytes, beVal (l ++ [x]) = 256 * beVal l + x := by
      intro l; simp [beVal, List.foldl_append]
    rw [h1, h2, h2, ih]
    ring_nf
    simp [Nat.pow_succ]
    ring

theorem beVal_beBytes (w n : Nat) (h : n < 256 ^ w) :
    beVal (beBytes w n) = n := by
  induction w generalizing n with
  | zero => interval_cases n; rfl
  | succ w ih =>
    have hd : n / 256 < 256 ^ w := by
      rw [Nat.div_lt_iff_lt_mul (by norm_num)]
      calc n < 256 ^ (w + 1) := h
        _ = 256 ^ w * 256 := by rw [Nat.pow_succ]
    rw [beBytes, beVal_append, ih _ hd]
    simp [beVal]
    omega

theorem beBytes_beVal (w : Nat) (b : Bytes) (hl : b.length = w)
    (hb : ∀ x ∈ b, x < 256) : beBytes w (beVal b) = b := by
  induction w generalizing b with
  | zero =>
    have hb0 : b = [] := List.eq_nil_of_length_eq_zero hl
    subst hb0; rfl
  | succ w ih =>
    rcases List.eq_nil_or_concat b with rfl | ⟨c, x, rfl⟩
    · simp at hl
    · simp only [List.concat_eq_append] at hl hb ⊢
      have hcl : c.length = w := by simpa using hl
      have hxv : x < 256 := hb x (by simp)
      have hv : beVal (c ++ [x]) = 256 * beVal c + x := by
        simp [beVal, List.foldl_append]
      rw [beBytes, hv]
      have hdiv : (256 * beVal c + x) / 256 = beVal c := by omega
      have hmod : (256 * beVal c + x) % 256 = x := by omega
      rw [hdiv, hmod, ih c hcl (fun y hy => hb y (by simp [hy]))]

theorem beVal_lt (b : Bytes) (hb : ∀ x ∈ b, x < 256) :
    beVal b < 256 ^ b.length := by
  induction b using List.reverseRecOn with
  | nil => simp [beVal]
  | append_singleton c x ih =>
    have hv : beVal (c ++ [x]) = 256 * beVal c + x := by
      simp [beVal, List.foldl_append]
    have h1 : beVal c < 256 ^ c.length := ih (fun y hy => hb y (by simp [hy]))
    have h2 : x < 256 := hb x (by simp)
    rw [hv]
    simp only [List.length_append, List.length_singleton, Nat.pow_succ]
    omega

theorem packFields_cons_inv (w : Nat) (ws : List Nat) (v : Nat) (vs : List Nat)
    (b : Bytes) (h : packFields (w :: ws) (v :: vs) = some b) :
    v < 256 ^ w ∧ ∃ r, packFields ws vs = some r ∧ b = beBytes w v ++ r := by
  by_cases hv : v < 256 ^ w
  · cases hr : packFields ws vs with
    | none => rw [packFields, packField, if_pos hv, hr] at h; exact absurd h (by simp)
    | some r =>
      rw [packFields, packField, if_pos hv, hr] at h
      exact ⟨hv, r, rfl, by simpa using h.symm⟩
  · rw [packFields, packField, if_neg hv] at h
    exact absurd h (by simp)

theorem packFields_isSome (ws vs : List Nat) (h : valsInRange ws vs = true) :
    ∃ b, packFields ws vs = some b := by
  induction ws generalizing vs with
  | nil => cases vs with
    | nil => exact ⟨[], rfl⟩
    | cons v vs => exact absurd h (by simp [valsInRange])
  | cons w ws ih =>
    cases vs with
    | nil => exact absurd h (by simp [valsInRange])
    | cons v vs =>
      simp only [valsInRange, Bool.and_eq_true, decide_eq_true_eq] at h
      obtain ⟨hv, hrest⟩ := h
      obtain ⟨r, hr⟩ := ih vs hrest
      exact ⟨beBytes w v ++ r, by rw [packFields, packField, if_pos hv, hr]⟩

theorem packFields_length (ws vs : List Nat) (b : Bytes)
    (h : packFields ws vs = some b) : b.length = ws.sum := by
  induction ws generalizing vs b with
  | nil => cases vs <;> simp_all [packFields]
  | cons w ws ih =>
    cases vs with
    | nil => simp [packFields] at h
    | cons v vs =>
      obtain ⟨hv, r, hr, rfl⟩ := packFields_cons_inv w ws v vs b h
      simp [beBytes_length, ih vs r hr, List.sum_cons]

theorem valsInRange_of_packFields (ws vs : List Nat) (b : Bytes)
    (h : packFields ws vs = some b) : valsInRange ws vs = true := by
  induction ws generalizing vs b with
  | nil => cases vs <;> simp_all [packFields, valsInRange]
  | cons w ws ih =>
    cases vs with
    | nil => simp [packFields] at h
    | cons v vs =>
      obtain ⟨hv, r, hr, rfl⟩ := packFields_cons_inv w ws v vs b h
      simp only [valsInRange, Bool.and_eq_true, decide_eq_true_eq]
      exact ⟨hv, ih vs r hr⟩

theorem packFields_bytes_lt (ws vs : List Nat) (b : Bytes)
    (h : packFields ws vs = some b) : ∀ x ∈ b, x < 256 := by
  induction ws generalizing vs b with
  | nil => cases vs <;> simp_all [packFields]
  | cons w ws ih =>
    cases vs with
    | nil => simp [packFields] at h
    | cons v vs =>
      obtain ⟨hv, r, hr, rfl⟩ := packFields_cons_inv w ws v vs b h
      intro x hx
      rcases List.mem_append.mp hx with hx | hx
      · exact beBytes_lt w v x hx
      · exact ih vs r hr x hx

theorem unpackFields_packFields (ws vs : List Nat) (b : Bytes)
    (h : packFields ws vs = some b) : unpackFields ws b = vs := by
  induction ws generalizing vs b with
  | nil => cases vs <;> simp_all [packFields, unpackFields]
  | cons w ws ih =>
    cases vs with
    | nil => simp [packFields] at h
    | cons v vs =>
      obtain ⟨hv, r, hr, rfl⟩ := packFields_cons_inv w ws v vs b h
      have hlen : (beBytes w v).length = w := beBytes_length w v
      rw [unpackFields, List.take_left' hlen, List.drop_left' hlen,
        beVal_beBytes w v hv, ih vs r hr]

theorem packFields_unpackFields (ws : List Nat) (b : Bytes)
    (hl : b.length = ws.sum) (hb : ∀ x ∈ b, x < 256) :
    packFields ws (unpackFields ws b) = some b := by
  induction ws generalizing b with
  | nil =>
    have hb0 : b = [] := List.eq_nil_of_length_eq_zero (by simpa using hl)
    subst hb0; rfl
  | cons w ws ih =>
    have hwl : w ≤ b.length := by rw [hl, List.sum_cons]; omega
    have htl : (b.take w).length = w := by rw [List.length_take]; omega
    have hv : beVal (b.take w) < 256 ^ w := by
      have hlt := beVal_lt (b.take w) (fun x hx => hb x (List.mem_of_mem_take hx))
      rwa [htl] at hlt
    have hrec : packFields ws (unpackFields ws (b.drop w)) = some (b.drop w) := by
      apply ih
      · rw [List.length_drop, hl, List.sum_cons]; omega
      · exact fun x hx => hb x (List.mem_of_mem_drop hx)
    rw [unpackFields, packFields, packField, if_pos hv, hrec,
      beBytes_beVal w (b.take w) htl (fun x hx => hb x (List.mem_of_mem_take hx))]
    simp [List.take_append_drop]

theorem unpackFields_inRange (ws : List Nat) (b : Bytes)
    (hl : b.length = ws.sum) (hb : ∀ x ∈ b, x < 256) :
    valsInRange ws (unpackFields ws b) = true := by
  induction ws generalizing b with
  | nil => simp [unpackFields, valsInRange]
  | cons w ws ih =>
    have hwl : w ≤ b.length := by rw [hl, List.sum_cons]; omega
    have htl : (b.take w).length = w := by rw [List.length_take]; omega
    have hv : beVal (b.take w) < 256 ^ w := by
      have hlt := beVal_lt (b.take w) (fun x hx => hb x (List.mem_of_mem_take hx))
      rwa [htl] at hlt
    rw [unpackFields, valsInRange]
    simp only [Bool.and_eq_true, decide_eq_true_eq]
    refine ⟨hv, ih (b.drop w) ?_ (fun x hx => hb x (List.mem_of_mem_drop hx))⟩
    rw [List.length_drop, hl, List.sum_cons]; omega

theorem udp_select_htype_eq (sport dport : Nat) (s : PState) (buf : Bytes)
    (hsp : u16be (pySlice buf 0 2) = some sport)
    (hdp : u16be (pySlice buf 2 4) = some dport) :
    udp_dissect s buf =
      some (match udp_select_htype udp_handler sport dport with
            | some htype => init_handler udp_handler s htype (buf.drop 8)
            | none => s, 8) := by
  simp [udp_dissect, hsp, hdp, udp_select_htype]

/-! ## Engine round-trip lemma

`bin(update_auto_fields=False)` on a freshly dissected packet returns the
cached header slice concatenated with the body the dissector installed. -/

theorem bin_mk_packet (sc : Schema) (d : PState → Bytes → Option (PState × Nat))
    (buf B : Bytes) (s1 : PState) (hl : Nat)
    (hd : d (initState sc) buf = some (s1, hl))
    (hb : s1.body_changed = true → get_bodybytes s1 = some B)
    (hbf : s1.body_changed = false →
      s1.lazy_handler_data = none ∧ s1.bodytypename = none ∧ B = buf.drop hl) :
    (bin sc (mk_packet sc d buf)).1 = .ok (buf.take hl ++ B) := by
  simp only [mk_packet]
  rw [hd]
  by_cases hbc : s1.body_changed = false
  · obtain ⟨hlz, hbt, hBdef⟩ := hbf hbc
    subst hBdef
    simp only [hbc, reset_changed, if_pos]
    simp [bin, get_bodybytes, pack_header, hlz, hbt]
  · have hbc' : s1.body_changed = true := by
      revert hbc; cases s1.body_changed <;> simp
    have hgb : get_bodybytes s1 = some B := hb hbc'
    simp only [hbc', reset_changed]
    simp only [Bool.true_eq_false, if_false]
    simp [bin, pack_header]
    unfold get_bodybytes at hgb ⊢
    rcases hlz : s1.lazy_handler_data with _ | ⟨cid, lb⟩ <;>
      rcases hbt : s1.bodytypename with _ | tn <;>
      simp [hlz, hbt] at hgb <;>
      simp [hlz, hbt, hgb]

/-! ## Claim theorems (C1, C4, C5, C6, C10) -/

theorem mk_packet_dissect_error (sc : Schema)
    (d : PState → Bytes → Option (PState × Nat)) (buf : Bytes)
    (h : d (initState sc) buf = none) :
    (mk_packet sc d buf).dissect_error = true := by
  simp only [mk_packet]
  rw [h]
  simp [reset_changed]

theorem u16be_length (b : Bytes) (v : Nat) (h : u16be b = some v) : b.length = 2 := by
  match b with
  | [] | [_] => simp [u16be] at h
  | [_, _] => rfl
  | _ :: _ :: _ :: _ => simp [u16be] at h

theorem u16le_length (b : Bytes) (v : Nat) (h : u16le b = some v) : b.length = 2 := by
  match b with
  | [] | [_] => simp [u16le] at h
  | [_, _] => rfl
  | _ :: _ :: _ :: _ => simp [u16le] at h

theorem u32be_length (b : Bytes) (v : Nat) (h : u32be b = some v) : b.length = 4 := by
  match b with
  | [] | [_] | [_, _] | [_, _, _] => simp [u32be] at h
  | [_, _, _, _] => rfl
  | _ :: _ :: _ :: _ :: _ :: _ => simp [u32be] at h

theorem pySlice_length (l : Bytes) (a b : Nat) :
    (pySlice l a b).length = min b l.length - a := by
  simp [pySlice, List.length_drop, List.length_take]

/-- UDP round-trip: any buffer accepted without `dissect_error` serializes
back to itself with `update_auto_fields=False`. -/
theorem udp_accepted_roundtrip (buf : Bytes)
    (h : (mk_udp buf).dissect_error = false) :
    (bin udpSchema (mk_udp buf)).1 = .ok buf := by
  rcases hsp : u16be (pySlice buf 0 2) with _ | sport
  · have hde : (mk_udp buf).dissect_error = true :=
      mk_packet_dissect_error _ _ _ (by simp [udp_dissect, hsp])
    simp [hde] at h
  rcases hdp : u16be (pySlice buf 2 4) with _ | dport
  · have hde : (mk_udp buf).dissect_error = true :=
      mk_packet_dissect_error _ _ _ (by simp [udp_dissect, hsp, hdp])
    simp [hde] at h
  have hbuf : buf.take 8 ++ buf.drop 8 = buf := List.take_append_drop 8 buf
  rcases hsel : udp_select_htype udp_handler sport dport with _ | htype
  · have hdis : udp_dissect (initState udpSchema) buf =
        some (initState udpSchema, 8) := by
      rw [udp_select_htype_eq sport dport _ buf hsp hdp, hsel]
    have hres := bin_mk_packet udpSchema udp_dissect buf (buf.drop 8)
      (initState udpSchema) 8 hdis
      (by intro hx; simp [initState] at hx)
      (fun _ => ⟨rfl, rfl, rfl⟩)
    rwa [hbuf] at hres
  · have hdis : udp_dissect (initState udpSchema) buf =
        some (init_handler udp_handler (initState udpSchema) htype (buf.drop 8), 8) := by
      rw [udp_select_htype_eq sport dport _ buf hsp hdp, hsel]
    have hreg : (udp_handler htype).isSome = true := by
      have hh : ([sport, dport].filter (fun x => (udp_handler x).isSome)).head? =
          some htype := hsel
      have hmem : htype ∈ [sport, dport].filter (fun x => (udp_handler x).isSome) :=
        List.mem_of_mem_head? (by rw [hh]; rfl)
      exact (List.mem_filter.mp hmem).2
    obtain ⟨cid, hcid⟩ := Option.isSome_iff_exists.mp hreg
    rcases hdrop : buf.drop 8 with _ | ⟨b0, brest⟩
    · have hih : init_handler udp_handler (initState udpSchema) htype (buf.drop 8) =
          initState udpSchema := by
        rw [hdrop]; simp [init_handler]
      rw [hih] at hdis
      have hres := bin_mk_packet udpSchema udp_dissect buf (buf.drop 8)
        (initState udpSchema) 8 hdis
        (by intro hx; simp [initState] at hx)
        (fun _ => ⟨rfl, rfl, rfl⟩)
      rwa [hbuf] at hres
    · have hne : buf.drop 8 ≠ [] := by rw [hdrop]; simp
      have hih : init_handler udp_handler (initState udpSchema) htype (buf.drop 8) =
          { initState udpSchema with
              lazy_handler_data := some (cid, buf.drop 8), bodytypename := some cid,
              body_bytes := none, body_changed := true } := by
        simp [init_handler, hne, hcid]
      rw [hih] at hdis
      have hres := bin_mk_packet udpSchema udp_dissect buf (buf.drop 8)
        _ 8 hdis
        (fun _ => by simp [get_bodybytes])
        (by intro hx; simp at hx)
      rwa [hbuf] at hres

theorem rtap_mk_eval (buf : Bytes) (rs1 : RtapState) (hl : Nat)
    (hd : rtap_dissect ⟨initState rtapSchema, [], none⟩ buf = some (rs1, hl)) :
    (mk_rtap buf).fcs = rs1.fcs ∧
    (mk_rtap buf).core.lazy_handler_data = rs1.core.lazy_handler_data ∧
    (mk_rtap buf).core.dissect_error = rs1.core.dissect_error := by
  simp only [mk_rtap]
  rw [hd]
  by_cases hbc : rs1.core.body_changed = false <;> simp [hbc, reset_changed]

/-- Evaluation of `Radiotap(buf).bin(...)` from the dissector's output:
the cached header slice, then the installed body, then the FCS. -/
theorem rtap_bin_eval (buf B : Bytes) (rs1 : RtapState) (hl : Nat)
    (hd : rtap_dissect ⟨initState rtapSchema, [], none⟩ buf = some (rs1, hl))
    (hb : rs1.core.body_changed = true → get_bodybytes rs1.core = some B)
    (hbf : rs1.core.body_changed = false →
      rs1.core.lazy_handler_data = none ∧ rs1.core.bodytypename = none ∧
      B = buf.drop hl) :
    (rtap_bin (mk_rtap buf)).1 = .ok (buf.take hl ++ B ++ rs1.fcs.getD []) := by
  simp only [mk_rtap]
  rw [hd]
  by_cases hbc : rs1.core.body_changed = false
  · obtain ⟨hlz, hbt, hBdef⟩ := hbf hbc
    subst hBdef
    simp only [hbc, reset_changed, if_pos]
    simp [rtap_bin, bin, get_bodybytes, pack_header, hlz, hbt]
  · have hbc' : rs1.core.body_changed = true := by
      revert hbc; cases rs1.core.body_changed <;> simp
    have hgb : get_bodybytes rs1.core = some B := hb hbc'
    simp only [hbc', reset_changed]
    simp only [Bool.true_eq_false, if_false]
    simp only [rtap_bin, bin, pack_header]
    unfold get_bodybytes at hgb ⊢
    rcases hlz : rs1.core.lazy_handler_data with _ | ⟨cid, lb⟩ <;>
      rcases hbt : rs1.core.bodytypename with _ | tn <;>
      simp [hlz, hbt] at hgb <;>
      simp [hlz, hbt, hgb]

/-- Radiotap round-trip for every accepted buffer outside the degenerate
FCS corner: when an FCS is detected the slice handed to the upper-layer
handler must be nonempty (it then became lazy handler data). -/
theorem rtap_accepted_roundtrip (buf : Bytes)
    (h : (mk_rtap buf).core.dissect_error = false)
    (hnd : (mk_rtap buf).fcs = none ∨
      (mk_rtap buf).core.lazy_handler_data.isSome = true) :
    (rtap_bin (mk_rtap buf)).1 = .ok buf := by
  rcases hpf : u32be (pySlice buf 4 8) with _ | pf
  · have hde : (mk_rtap buf).core.dissect_error = true := by
      simp [mk_rtap, rtap_dissect, hpf, reset_changed]
    simp [hde] at h
  have hlen8 : 8 ≤ buf.length := by
    have h4 := u32be_length _ _ hpf
    rw [pySlice_length] at h4
    omega
  rcases hhl : u16le (pySlice buf 2 4) with _ | hl
  · have hde : (mk_rtap buf).core.dissect_error = true := by
      simp only [mk_rtap, rtap_dissect, hpf]
      by_cases hflag : pf &&& 0x02000000 = 0x02000000 <;>
        by_cases hoff : (if pf &&& 0x01000000 = 0x01000000 then 8 else 0) < buf.length <;>
        by_cases hfcs : buf.getD (if pf &&& 0x01000000 = 0x01000000 then 8 else 0) 0 &&& 0x10 ≠ 0 <;>
        simp [hflag, hoff, hfcs, hhl, reset_changed]
    simp [hde] at h
  by_cases hflag : pf &&& 0x02000000 = 0x02000000
  · by_cases hoff : (if pf &&& 0x01000000 = 0x01000000 then 8 else 0) < buf.length
    · by_cases hfcs : buf.getD (if pf &&& 0x01000000 = 0x01000000 then 8 else 0) 0 &&& 0x10 ≠ 0
      · -- FCS detected: pos_end = buf.length - 4
        rw [List.getD_eq_getElem?_getD, List.getElem?_eq_getElem hoff,
          Option.getD_some] at hfcs
        have hd : rtap_dissect ⟨initState rtapSchema, [], none⟩ buf =
            some (⟨init_handler rtap_handler
                { initState rtapSchema with
                    fields := (initState rtapSchema).fields.set RT_PRESENT_FLAGS pf,
                    header_format_changed := true }
                0 (pySlice buf hl (buf.length - 4)),
              pySlice buf 8 hl, some (buf.drop (buf.length - 4))⟩, hl) := by
          simp [rtap_dissect, hpf, hflag, hoff, hfcs, hhl, rtap_init_triggerlist]
        rcases hS : pySlice buf hl (buf.length - 4) with _ | ⟨s0, srest⟩
        · -- degenerate corner: excluded by `hnd`
          exfalso
          rw [hS] at hd
          simp only [init_handler, if_pos rfl] at hd
          obtain ⟨hfceq, hlzeq, _⟩ := rtap_mk_eval buf _ hl hd
          rcases hnd with hnd | hnd
          · rw [hfceq] at hnd; exact absurd hnd (by simp)
          · rw [hlzeq] at hnd; exact absurd hnd (by simp [initState])
        · have hne : pySlice buf hl (buf.length - 4) ≠ [] := by rw [hS]; simp
          rw [show pySlice buf hl (buf.length - 4) = s0 :: srest from hS] at hd
          rw [show (s0 :: srest : Bytes) = pySlice buf hl (buf.length - 4) from hS.symm] at hd
          have hih : init_handler rtap_handler
              { initState rtapSchema with
                  fields := (initState rtapSchema).fields.set RT_PRESENT_FLAGS pf,
                  header_format_changed := true }
              0 (pySlice buf hl (buf.length - 4)) =
              { initState rtapSchema with
                  fields := (initState rtapSchema).fields.set RT_PRESENT_FLAGS pf,
                  header_format_changed := true,
                  lazy_handler_data := some (100, pySlice buf hl (buf.length - 4)),
                  bodytypename := some 100, body_bytes := none, body_changed := true } := by
            simp [init_handler, hne, rtap_handler]
          rw [hih] at hd
          have hres := rtap_bin_eval buf (pySlice buf hl (buf.length - 4)) _ hl hd
            (fun _ => by simp [get_bodybytes])
            (by intro hx; simp at hx)
          rw [hres]
          -- list algebra: take hl ++ slice ++ last-four = buf
          have hlt : hl < buf.length - 4 := by
            have hSlen : (pySlice buf hl (buf.length - 4)).length =
                min (buf.length - 4) buf.length - hl := pySlice_length ..
            have hSne : 0 < (pySlice buf hl (buf.length - 4)).length :=
              List.length_pos.mpr hne
            omega
          have hsplit : buf.take hl ++ pySlice buf hl (buf.length - 4) ++
              buf.drop (buf.length - 4) = buf := by
            have h1 : buf.take hl = (buf.take (buf.length - 4)).take hl := by
              rw [List.take_take, Nat.min_eq_left (le_of_lt hlt)]
            rw [h1]
            rw [show pySlice buf hl (buf.length - 4) =
              (buf.take (buf.length - 4)).drop hl from rfl]
            rw [List.take_append_drop hl (buf.take (buf.length - 4))]
            exact List.take_append_drop _ _
          simp only [Option.getD_some]
          rw [hsplit]
      · -- flags byte without the 0x10 bit: no FCS
        rw [List.getD_eq_getElem?_getD, List.getElem?_eq_getElem hoff,
          Option.getD_some, ne_eq, not_not] at hfcs
        have hd : rtap_dissect ⟨initState rtapSchema, [], none⟩ buf =
            some (⟨init_handler rtap_handler
                { initState rtapSchema with
                    fields := (initState rtapSchema).fields.set RT_PRESENT_FLAGS pf,
                    header_format_changed := true }
                0 (pySlice buf hl buf.length),
              pySlice buf 8 hl, none⟩, hl) := by
          simp [rtap_dissect, hpf, hflag, hoff, hfcs, hhl, rtap_init_triggerlist]
        have htl : pySlice buf hl buf.length = buf.drop hl := by
          rw [show pySlice buf hl buf.length = (buf.take buf.length).drop hl from rfl,
            List.take_length]
        rw [htl] at hd
        rcases hS : buf.drop hl with _ | ⟨s0, srest⟩
        · rw [hS] at hd
          simp only [init_handler, if_pos rfl] at hd
          have hres := rtap_bin_eval buf (buf.drop hl) _ hl hd
            (by intro hx; simp [initState] at hx)
            (fun _ => ⟨rfl, rfl, rfl⟩)
          rw [hres]
          simp [List.take_append_drop]
        · have hne : buf.drop hl ≠ [] := by rw [hS]; simp
          have hih : init_handler rtap_handler
              { initState rtapSchema with
                  fields := (initState rtapSchema).fields.set RT_PRESENT_FLAGS pf,
                  header_format_changed := true }
              0 (buf.drop hl) =
              { initState rtapSchema with
                  fields := (initState rtapSchema).fields.set RT_PRESENT_FLAGS pf,
                  header_format_changed := true,
                  lazy_handler_data := some (100, buf.drop hl),
                  bodytypename := some 100, body_bytes := none, body_changed := true } := by
            simp [init_handler, hne, rtap_handler]
          rw [hih] at hd
          have hres := rtap_bin_eval buf (buf.drop hl) _ hl hd
            (fun _ => by simp [get_bodybytes])
            (by intro hx; simp at hx)
          rw [hres]
          simp [List.take_append_drop]
    · -- `buf[off]` raises: dissect error, excluded
      have hde : (mk_rtap buf).core.dissect_error = true := by
        simp [mk_rtap, rtap_dissect, hpf, hflag, hoff, reset_changed]
      simp [hde] at h
  · -- FLAGS present bit clear: no FCS
    have hd : rtap_dissect ⟨initState rtapSchema, [], none⟩ buf =
        some (⟨init_handler rtap_handler
            { initState rtapSchema with
                fields := (initState rtapSchema).fields.set RT_PRESENT_FLAGS pf,
                header_format_changed := true }
            0 (pySlice buf hl buf.length),
          pySlice buf 8 hl, none⟩, hl) := by
      simp [rtap_dissect, hpf, hflag, hhl, rtap_init_triggerlist]
    have htl : pySlice buf hl buf.length = buf.drop hl := by
      rw [show pySlice buf hl buf.length = (buf.take buf.length).drop hl from rfl,
        List.take_length]
    rw [htl] at hd
    rcases hS : buf.drop hl with _ | ⟨s0, srest⟩
    · rw [hS] at hd
      simp only [init_handler, if_pos rfl] at hd
      have hres := rtap_bin_eval buf (buf.drop hl) _ hl hd
        (by intro hx; simp [initState] at hx)
        (fun _ => ⟨rfl, rfl, rfl⟩)
      rw [hres]
      simp [List.take_append_drop]
    · have hne : buf.drop hl ≠ [] := by rw [hS]; simp
      have hih : init_handler rtap_handler
          { initState rtapSchema with
              fields := (initState rtapSchema).fields.set RT_PRESENT_FLAGS pf,
              header_format_changed := true }
          0 (buf.drop hl) =
          { initState rtapSchema with
              fields := (initState rtapSchema).fields.set RT_PRESENT_FLAGS pf,
              header_format_changed := true,
              lazy_handler_data := some (100, buf.drop hl),
              bodytypename := some 100, body_bytes := none, body_changed := true } := by
        simp [init_handler, hne, rtap_handler]
      rw [hih] at hd
      have hres := rtap_bin_eval buf (buf.drop hl) _ hl hd
        (fun _ => by simp [get_bodybytes])
        (by intro hx; simp at hx)
      rw [hres]
      simp [List.take_append_drop]

/-- C1 counterexample: the Radiotap protocol class accepts `rtap_cx_buf`
without `dissect_error`, yet `bin(update_auto_fields=False)` returns the
input with the four FCS bytes appended a second time — not the input. -/
theorem claim_C1_counterexample :
    (mk_rtap rtap_cx_buf).core.dissect_error = false ∧
    (rtap_bin (mk_rtap rtap_cx_buf)).1 =
      .ok (rtap_cx_buf ++ [0xAA, 0xBB, 0xCC, 0xDD]) ∧
    (rtap_bin (mk_rtap rtap_cx_buf)).1 ≠ .ok rtap_cx_buf := by
  refine ⟨by decide, by decide, by decide⟩

/-- C1 (amended): for the protocol classes in the source,
`Class(buf).bin(update_auto_fields=False) == buf` for every accepted buffer
(`dissect_error` unset) — except the Radiotap corner in which an FCS was
detected but the slice between header end and FCS start is empty (then the
FCS bytes are emitted twice, see the counterexample); outside that corner a
detected FCS always leaves lazy handler data behind, which is the second
disjunct of the Radiotap hypothesis. -/
theorem claim_C1_amended_roundtrip :
    (∀ buf : Bytes, (mk_udp buf).dissect_error = false →
      (bin udpSchema (mk_udp buf)).1 = .ok buf) ∧
    (∀ buf : Bytes, (mk_rtap buf).core.dissect_error = false →
      ((mk_rtap buf).fcs = none ∨
        (mk_rtap buf).core.lazy_handler_data.isSome = true) →
      (rtap_bin (mk_rtap buf)).1 = .ok buf) :=
  ⟨udp_accepted_roundtrip, rtap_accepted_roundtrip⟩

theorem claim_C1_witness :
    (bin udpSchema (mk_udp [4, 210, 0, 53, 0, 12, 0, 0, 112, 105, 110, 103])).1 =
      .ok [4, 210, 0, 53, 0, 12, 0, 0, 112, 105, 110, 103] ∧
    (rtap_bin (mk_rtap [0, 0, 8, 0, 0, 0, 0, 0, 1, 2, 3])).1 =
      .ok [0, 0, 8, 0, 0, 0, 0, 0, 1, 2, 3] :=
  ⟨claim_C1_amended_roundtrip.1 _ (by decide),
   claim_C1_amended_roundtrip.2 _ (by decide) (Or.inl (by decide))⟩

/-- C4: when the UDP dissector finds both ports registered in the handler
table, the source port wins (first match of `[sport, dport]`); the
destination port is used exactly when the source port is unregistered. -/
theorem claim_C4_port_dispatch (sport dport : Nat) :
    ((udp_handler sport).isSome = true →
      udp_select_htype udp_handler sport dport = some sport) ∧
    (udp_handler sport = none → (udp_handler dport).isSome = true →
      udp_select_htype udp_handler sport dport = some dport) := by
  constructor
  · intro hs
    simp [udp_select_htype, hs]
  · intro hs hd
    simp [udp_select_htype, hs, hd]

theorem claim_C4_witness :
    ((udp_handler 53).isSome = true ∧
      udp_select_htype udp_handler 53 67 = some 53) ∧
    (udp_handler 9999 = none ∧ (udp_handler 53).isSome = true ∧
      udp_select_htype udp_handler 9999 53 = some 53) :=
  ⟨⟨by decide, (claim_C4_port_dispatch 53 67).1 (by decide)⟩,
   ⟨by decide, by decide,
    (claim_C4_port_dispatch 9999 53).2 (by decide) (by decide)⟩⟩

/-- C5: a dissector calling `_init_handler` with a discriminator absent
from the registry raises nothing (`dissect_error` stays unset), and the
packet ends with the remaining buffer as raw body bytes, no lazy handler
data and no upper-layer handler. -/
theorem claim_C5_unknown_handler (sc : Schema) (reg : Nat → Option Nat)
    (d hl : Nat) (buf : Bytes) (hreg : reg d = none) :
    (let p := mk_packet sc (fun s b => some (init_handler reg s d (b.drop hl), hl)) buf
     (p.dissect_error, p.body_bytes, p.lazy_handler_data, p.bodytypename)) =
      (false, some (buf.drop hl), none, none) := by
  rcases hdrop : buf.drop hl with _ | ⟨b0, rest⟩
  · have hih : init_handler reg (initState sc) d (buf.drop hl) = initState sc := by
      rw [hdrop]; simp [init_handler]
    simp only [mk_packet, hih]
    simp [reset_changed, initState, hdrop]
  · have hne : buf.drop hl ≠ [] := by rw [hdrop]; simp
    have hih : init_handler reg (initState sc) d (buf.drop hl) =
        set_body_bytes (initState sc) (buf.drop hl) := by
      simp [init_handler, hne, hreg]
    simp only [mk_packet, hih]
    simp [set_body_bytes, set_bodyhandler_none, reset_changed, initState, hdrop]

theorem claim_C5_witness :
    udp_handler 9999 = none ∧
    (let p := mk_packet udpSchema
        (fun s b => some (init_handler udp_handler s 9999 (b.drop 8), 8))
        [39, 15, 39, 15, 0, 12, 0, 0, 112, 105, 110, 103]
     (p.dissect_error, p.body_bytes, p.lazy_handler_data, p.bodytypename)) =
      (false, some [112, 105, 110, 103], none, none) :=
  ⟨by decide,
   claim_C5_unknown_handler udpSchema udp_handler 9999 8
     [39, 15, 39, 15, 0, 12, 0, 0, 112, 105, 110, 103] (by decide)⟩

/-- C6 counterexample: with an out-of-range field value, `_pack_header`
returns the absent sentinel (`None`), but `bin()` does *not* return it —
`header_tmp + body_tmp` raises `TypeError`. -/
theorem claim_C6_counterexample :
    (pack_header udpSchema udp_overflow_state).1 = .ok none ∧
    (bin udpSchema udp_overflow_state).1 = .error .typeError := by
  refine ⟨by decide, by decide⟩

/-- C6 (amended): on a pack failure caused by an out-of-range field value,
`_pack_header` (and hence the `header_bytes` property) returns `None`;
`bin()` then raises `TypeError` when concatenating `None` with the body,
rather than returning the sentinel. -/
theorem claim_C6_amended_pack_failure (s : PState) (b : Bytes)
    (h1 : s.header_changed = true) (h2 : s.unpacked = some true)
    (h3 : s.header_format_changed = false)
    (h4 : valsInRange udpSchema.widths s.fields = false)
    (h5 : get_bodybytes s = some b) :
    (pack_header udpSchema s).1 = .ok none ∧
    (bin udpSchema s).1 = .error .typeError := by
  have hpf : packFields udpSchema.widths s.fields = none := by
    cases hp : packFields udpSchema.widths s.fields with
    | none => rfl
    | some r => rw [valsInRange_of_packFields _ _ _ hp] at h4; cases h4
  constructor
  · simp [pack_header, h1, h2, h3, hpf]
  · simp [bin, h5, pack_header, h1, h2, h3, hpf, reset_changed]

theorem claim_C6_witness :
    (pack_header udpSchema udp_overflow_state).1 = .ok none ∧
    (bin udpSchema udp_overflow_state).1 = .error PyErr.typeError :=
  claim_C6_amended_pack_failure udp_overflow_state [] (by decide) (by decide)
    (by decide) (by decide) (by decide)

/-- C10: `_set_body_bytes` (with no registered change listeners) only
touches the body representation: raw bytes set, upper layer and lazy
handler data cleared, `body_changed` raised; field slots, header cache,
header length and all header flags are untouched. -/
theorem claim_C10_body_frame (s : PState) (v : Bytes) :
    (set_body_bytes s v).fields = s.fields ∧
    (set_body_bytes s v).header_cached = s.header_cached ∧
    (set_body_bytes s v).header_len = s.header_len ∧
    (set_body_bytes s v).header_changed = s.header_changed ∧
    (set_body_bytes s v).header_format_changed = s.header_format_changed ∧
    (set_body_bytes s v).unpacked = s.unpacked ∧
    (set_body_bytes s v).dissect_error = s.dissect_error ∧
    (set_body_bytes s v).body_bytes = some v ∧
    (set_body_bytes s v).bodytypename = none ∧
    (set_body_bytes s v).lazy_handler_data = none ∧
    (set_body_bytes s v).body_changed = true := by
  by_cases hbt : s.bodytypename = none <;>
    simp [set_body_bytes, set_bodyhandler_none, hbt]

/-- C3 counterexample: the pseudo-header the code builds for 16-byte
addresses is 36 bytes — `src || dst || 0(1) || 17 || length(2)` — not the
claimed 38-byte `src || dst || 0(1) || 0(1) || 0(1) || 17 || length(2)`. -/
theorem claim_C3_counterexample :
    (udp_pseudoheader v6_src v6_dst 20).length = 36 ∧
    udp_pseudoheader v6_src v6_dst 20 ≠
      v6_src ++ v6_dst ++ [0, 0, 0, 17] ++ beBytes 2 20 := by
  refine ⟨by decide, by decide⟩

/-- C3 (amended): for 16-byte addresses the pseudo-header is the 36-byte
concatenation `src(16) || dst(16) || one zero byte || protocol 17 ||
length(2)` (`pack(">16s16sxBH", ...)` inserts a single pad byte). -/
theorem claim_C3_amended_pseudoheader (src dst : Bytes) (l : Nat)
    (hs : src.length = 16) (hd : dst.length = 16) (_hl : l < 65536) :
    udp_pseudoheader src dst l = src ++ dst ++ [0, 17] ++ beBytes 2 l ∧
    (udp_pseudoheader src dst l).length = 36 := by
  have hp : ∀ b : Bytes, b.length = 16 → pack_bytes 16 b = b := by
    intro b hb
    simp [pack_bytes, List.take_of_length_le (le_of_eq hb), hb]
  have hcond : ¬src.length = 4 := by rw [hs]; decide
  constructor
  · rw [udp_pseudoheader, if_neg hcond, hp src hs, hp dst hd]
    simp
  · rw [udp_pseudoheader, if_neg hcond, hp src hs, hp dst hd]
    simp [hs, hd, beBytes_length]

theorem claim_C3_witness :
    v6_src.length = 16 ∧ v6_dst.length = 16 ∧ (20 : Nat) < 65536 ∧
    (udp_pseudoheader v6_src v6_dst 20 =
        v6_src ++ v6_dst ++ [0, 17] ++ beBytes 2 20 ∧
      (udp_pseudoheader v6_src v6_dst 20).length = 36) :=
  ⟨by decide, by decide, by decide,
   claim_C3_amended_pseudoheader v6_src v6_dst 20 (by decide) (by decide) (by decide)⟩

theorem in_cksum_lt (data : Bytes) : in_cksum data < 65536 :=
  Nat.lt_of_le_of_lt (Nat.sub_le _ _) (by norm_num)

/-- C2: with a lower layer providing `src`/`dst`, in-range field values and
a total datagram shorter than 65536 bytes, `_calc_sum` stores exactly the
one's-complement checksum of `pseudo_header || header_with_sum_zero || body`,
substituting `0xFFFF` for a zero result — so the stored (and serialized)
checksum field is never zero. -/
theorem claim_C2_checksum (s : PState) (src dst body : Bytes)
    (hunp : s.unpacked = some true)
    (hfmt : s.header_format_changed = false)
    (hflds : valsInRange udpSchema.widths (s.fields.set UDP_SUM 0) = true)
    (hlen : s.fields.length = 4)
    (hlz : s.lazy_handler_data = none) (hbt : s.bodytypename = none)
    (hbb : s.body_bytes = some body)
    (hsz : 8 + body.length < 65536) :
    (udp_calc_sum (some (src, dst)) s).2 = true ∧
    ((udp_calc_sum (some (src, dst)) s).1.fields.getD UDP_SUM 0 =
      (let h0 := (packFields udpSchema.widths (s.fields.set UDP_SUM 0)).getD []
       let c := in_cksum (udp_pseudoheader src dst (h0 ++ body).length ++ (h0 ++ body))
       if c = 0 then 65535 else c)) ∧
    (udp_calc_sum (some (src, dst)) s).1.fields.getD UDP_SUM 0 ≠ 0 ∧
    (udp_calc_sum (some (src, dst)) s).1.fields.getD UDP_SUM 0 < 65536 ∧
    beBytes 2 ((udp_calc_sum (some (src, dst)) s).1.fields.getD UDP_SUM 0) ≠ [0, 0] := by
  obtain ⟨h0, hh0⟩ := packFields_isSome _ _ hflds
  have hh0len : h0.length = 8 := packFields_length _ _ _ hh0
  have hbinlen : (h0 ++ body).length < 65536 := by
    simp [List.length_append, hh0len]; omega
  have hbinlen2 : h0.length + body.length < 65536 := by rw [hh0len]; omega
  -- unfold the `let`s of the statement and abbreviate the checksum value
  simp only [hh0, Option.getD_some, List.length_append]
  generalize hcdef :
    in_cksum (udp_pseudoheader src dst (h0.length + body.length) ++ (h0 ++ body)) = c
  have hclt : c < 65536 := hcdef ▸ in_cksum_lt _
  have hcs : udp_calc_sum (some (src, dst)) s =
      ({ s with fields := s.fields.set UDP_SUM (if c = 0 then 65535 else c),
                header_changed := true, header_cached := h0,
                header_format_changed := false, body_bytes := some body,
                bodytypename := none, lazy_handler_data := none,
                unpacked := some true }, true) := by
    simp [udp_calc_sum, set_field, pack_header, get_bodybytes, hunp, hfmt, hh0,
      hlz, hbt, hbb, hbinlen2, hcdef]
  have hget : (s.fields.set UDP_SUM (if c = 0 then 65535 else c)).getD
      UDP_SUM 0 = (if c = 0 then 65535 else c) := by
    have hl3 : UDP_SUM < s.fields.length := by rw [hlen]; decide
    rw [List.getD_eq_getElem?_getD, List.getElem?_set_self hl3, Option.getD_some]
  have hne : (if c = 0 then 65535 else c) ≠ 0 := by
    by_cases h0c : c = 0 <;> simp [h0c]
  have hlt : (if c = 0 then 65535 else c) < 65536 := by
    by_cases h0c : c = 0
    · simp [h0c]
    · simpa [h0c] using hclt
  refine ⟨by simp [hcs], ?_, ?_, ?_, ?_⟩
  · simp only [hcs]
    exact hget
  · simp only [hcs]
    rw [hget]
    exact hne
  · simp only [hcs]
    rw [hget]
    exact hlt
  · simp only [hcs]
    rw [hget]
    intro heq
    revert hne hlt
    generalize (if c = 0 then 65535 else c) = v at heq ⊢
    intro hne hlt
    simp [beBytes] at heq
    omega

theorem claim_C2_witness :
    udp_c2_state.unpacked = some true ∧
    valsInRange udpSchema.widths (udp_c2_state.fields.set UDP_SUM 0) = true ∧
    ((udp_calc_sum (some ([10, 0, 0, 1], [10, 0, 0, 2])) udp_c2_state).2 = true ∧
      ((udp_calc_sum (some ([10, 0, 0, 1], [10, 0, 0, 2])) udp_c2_state).1.fields.getD
          UDP_SUM 0 =
        (let h0 := (packFields udpSchema.widths (udp_c2_state.fields.set UDP_SUM 0)).getD []
         let c := in_cksum (udp_pseudoheader [10, 0, 0, 1] [10, 0, 0, 2]
           (h0 ++ [112, 105, 110, 103]).length ++ (h0 ++ [112, 105, 110, 103]))
         if c = 0 then 65535 else c)) ∧
      (udp_calc_sum (some ([10, 0, 0, 1], [10, 0, 0, 2])) udp_c2_state).1.fields.getD
          UDP_SUM 0 ≠ 0 ∧
      (udp_calc_sum (some ([10, 0, 0, 1], [10, 0, 0, 2])) udp_c2_state).1.fields.getD
          UDP_SUM 0 < 65536 ∧
      beBytes 2 ((udp_calc_sum (some ([10, 0, 0, 1], [10, 0, 0, 2]))
        udp_c2_state).1.fields.getD UDP_SUM 0) ≠ [0, 0]) :=
  ⟨by decide, by decide,
   claim_C2_checksum udp_c2_state [10, 0, 0, 1] [10, 0, 0, 2] [112, 105, 110, 103]
     (by decide) (by decide) (by decide) (by decide) (by decide) (by decide)
     (by decide) (by decide)⟩

/-- C8 counterexample: `dissect_full()` returns `None`, so the claim's
right-hand side `Class(buf).dissect_full().highest_layer` raises
`AttributeError` instead of equaling `Class(buf).highest_layer`. -/
theorem claim_C8_counterexample :
    dissect_full_ret cx_table 1 (instantiate cx_table 0 [1, 2, 3, 4, 5, 6, 7, 8, 9]) =
      none ∧
    py_highest_layer cx_table 1
      (dissect_full_ret cx_table 1 (instantiate cx_table 0 [1, 2, 3, 4, 5, 6, 7, 8, 9])) =
      .error .attributeError ∧
    py_highest_layer cx_table 1
      (some (instantiate cx_table 0 [1, 2, 3, 4, 5, 6, 7, 8, 9])) =
      .ok (some (instantiate cx_table 0 [1, 2, 3, 4, 5, 6, 7, 8, 9])) :=
  ⟨rfl, rfl, rfl⟩

/-- C8 (amended): forcing a full recursive parse does not change which
layer is topmost — for any class table and any fuel, if `dissect_full`
completes then the highest layer of its result equals the highest layer
reached by lazy navigation from the original packet. -/
theorem claim_C8_amended_lazy_eager (T : ClsTable) (n : Nat) (p q : LPkt)
    (h : dissect_full T n p = some q) :
    highest_layer T n q = highest_layer T n p := by
  induction n generalizing p q with
  | zero => simp [dissect_full] at h
  | succ n ih =>
    rcases p with ⟨c, hd, b⟩
    rcases b with bb | ⟨cid, bb⟩ | p'
    · simp only [dissect_full] at h
      obtain rfl := Option.some.inj h
      rfl
    · simp only [dissect_full] at h
      rcases hq' : dissect_full T n (instantiate T cid bb) with _ | q'
      · rw [hq'] at h; exact absurd h (by simp)
      · rw [hq'] at h
        obtain rfl := Option.some.inj h
        exact ih _ _ hq'
    · simp only [dissect_full] at h
      rcases hq' : dissect_full T n p' with _ | q'
      · rw [hq'] at h; exact absurd h (by simp)
      · rw [hq'] at h
        obtain rfl := Option.some.inj h
        exact ih _ _ hq'

theorem claim_C8_witness :
    dissect_full cx_table2 2 (instantiate cx_table2 0 [1, 2, 3, 4, 5, 6, 7, 8]) =
      some (LPkt.mk 0 [1, 2, 3, 4] (.attached (LPkt.mk 1 [5, 6, 7, 8] (.raw [])))) ∧
    highest_layer cx_table2 2
        (LPkt.mk 0 [1, 2, 3, 4] (.attached (LPkt.mk 1 [5, 6, 7, 8] (.raw [])))) =
      highest_layer cx_table2 2 (instantiate cx_table2 0 [1, 2, 3, 4, 5, 6, 7, 8]) :=
  ⟨rfl, claim_C8_amended_lazy_eager cx_table2 2 _ _ rfl⟩

theorem unpackFields_length (ws : List Nat) (b : Bytes) :
    (unpackFields ws b).length = ws.length := by
  induction ws generalizing b with
  | nil => rfl
  | cons w ws ih => simp [unpackFields, ih]

theorem valsInRange_set (ws vs : List Nat) (i v : Nat)
    (h : valsInRange ws vs = true) (hv : v < 256 ^ (ws.getD i 0)) :
    valsInRange ws (vs.set i v) = true := by
  induction ws generalizing vs i with
  | nil => cases vs <;> simp_all [valsInRange]
  | cons w ws ih =>
    cases vs with
    | nil => simp [valsInRange] at h
    | cons v0 vs =>
      simp only [valsInRange, Bool.and_eq_true, decide_eq_true_eq] at h
      cases i with
      | zero =>
        simp only [List.set, valsInRange, Bool.and_eq_true, decide_eq_true_eq]
        exact ⟨by simpa using hv, h.2⟩
      | succ i =>
        simp only [List.set, valsInRange, Bool.and_eq_true, decide_eq_true_eq]
        exact ⟨h.1, ih vs i h.2 (by simpa using hv)⟩

theorem unpack_eval (sc : Schema) (s : PState)
    (hfmt : s.header_format_changed = false)
    (hlen : s.header_cached.length = sc.size) :
    unpack sc s =
      ({ s with unpacked := some true,
                fields := unpackFields sc.widths s.header_cached }, true) := by
  simp [unpack, hfmt, Schema.size, hlen]

theorem set_body_bytes_eval (s : PState) (v : Bytes) :
    set_body_bytes s v =
      { s with body_bytes := some v, bodytypename := none,
               lazy_handler_data := none, body_changed := true } := by
  by_cases hbt : s.bodytypename = none <;>
    simp [set_body_bytes, set_bodyhandler_none, hbt]

theorem step_WF (sc : Schema) (s : PState) (op : POp)
    (hwf : WF sc s) (hok : pop_ok sc op) : WF sc (step sc s op) := by
  obtain ⟨hflen, hfrange, hclen, hcbytes, hfmt, hunp, hbody, hinv⟩ := hwf
  have hurange : valsInRange sc.widths (unpackFields sc.widths s.header_cached) = true :=
    unpackFields_inRange sc.widths s.header_cached hclen hcbytes
  have hulen : (unpackFields sc.widths s.header_cached).length = sc.widths.length :=
    unpackFields_length ..
  have hpu : packFields sc.widths (unpackFields sc.widths s.header_cached) =
      some s.header_cached :=
    packFields_unpackFields sc.widths s.header_cached hclen hcbytes
  cases op with
  | setF i v =>
    obtain ⟨hi, hv⟩ := hok
    rcases hunp with hunp | hunp
    · have hst : step sc s (.setF i v) =
          { s with fields := s.fields.set i v, header_changed := true } := by
        simp [step, set_field, hunp]
      rw [hst]
      exact ⟨by simp [hflen], valsInRange_set _ _ _ _ hfrange hv, hclen, hcbytes,
        hfmt, Or.inl hunp, hbody, by intro hch; cases hch⟩
    · have hst : step sc s (.setF i v) =
          { s with unpacked := some true,
                   fields := (unpackFields sc.widths s.header_cached).set i v,
                   header_changed := true } := by
        simp [step, set_field, hunp, unpack_eval sc s hfmt hclen]
      rw [hst]
      exact ⟨by simp [hulen], valsInRange_set _ _ _ _ hurange hv, hclen, hcbytes,
        hfmt, Or.inl rfl, hbody, by intro hch; cases hch⟩
  | getF i =>
    rcases hunp with hunp | hunp
    · have hst : step sc s (.getF i) = s := by
        simp [step, get_field, hunp]
      rw [hst]
      exact ⟨hflen, hfrange, hclen, hcbytes, hfmt, Or.inl hunp, hbody, hinv⟩
    · have hst : step sc s (.getF i) =
          { s with unpacked := some true,
                   fields := unpackFields sc.widths s.header_cached } := by
        simp [step, get_field, hunp, unpack_eval sc s hfmt hclen]
      rw [hst]
      refine ⟨hulen, hurange, hclen, hcbytes, hfmt, Or.inl rfl, hbody, ?_⟩
      intro _
      simpa [obs_fields] using hpu
  | setBody b =>
    have hst : step sc s (.setBody b) =
        { s with body_bytes := some b, bodytypename := none,
                 lazy_handler_data := none, body_changed := true } :=
      set_body_bytes_eval s b
    rw [hst]
    refine ⟨hflen, hfrange, hclen, hcbytes, hfmt, hunp, by intro _; exact ⟨rfl, rfl⟩, ?_⟩
    intro hch
    simpa [obs_fields] using hinv hch
  | binOp =>
    -- the body of `bin` always resolves under WF
    have hbodyE : ∃ bb, get_bodybytes s = some bb := by
      rcases hlz : s.lazy_handler_data with _ | ⟨cid, lb⟩
      · obtain ⟨hbt, hbs⟩ := hbody hlz
        rcases hbb : s.body_bytes with _ | bb
        · rw [hbb] at hbs; cases hbs
        · exact ⟨bb, by simp [get_bodybytes, hlz, hbt, hbb]⟩
      · exact ⟨lb, by simp [get_bodybytes, hlz]⟩
    obtain ⟨bb, hbb⟩ := hbodyE
    by_cases hch : s.header_changed = false
    · have hst : step sc s .binOp = reset_changed s := by
        simp [step, bin, hbb, pack_header, hch, reset_changed]
      rw [hst]
      refine ⟨hflen, hfrange, hclen, hcbytes, hfmt, hunp, hbody, ?_⟩
      intro _
      have hobs : obs_fields sc (reset_changed s) = obs_fields sc s := by
        simp [obs_fields, reset_changed]
      rw [hobs]
      simpa [reset_changed] using hinv hch
    · have hch' : s.header_changed = true := by
        revert hch; cases s.header_changed <;> simp
      rcases hunp with hunp | hunp
      · -- already unpacked: repack the slots
        obtain ⟨bts, hbts⟩ := packFields_isSome sc.widths s.fields hfrange
        have hst : step sc s .binOp =
            { s with header_cached := bts, header_changed := false,
                     body_changed := false } := by
          simp [step, bin, hbb, pack_header, hch', hunp, hfmt, hbts, reset_changed]
        rw [hst]
        refine ⟨hflen, hfrange, packFields_length _ _ _ hbts,
          packFields_bytes_lt _ _ _ hbts, hfmt, Or.inl hunp, hbody, ?_⟩
        intro _
        simpa [obs_fields, hunp] using hbts
      · -- not yet unpacked: `_unpack` re-reads the cache, repacking restores it
        have hst : step sc s .binOp =
            { s with unpacked := some true,
                     fields := unpackFields sc.widths s.header_cached,
                     header_changed := false, body_changed := false } := by
          simp [step, bin, hbb, pack_header, hch', hunp,
            unpack_eval sc s hfmt hclen, hpu, reset_changed]
        rw [hst]
        refine ⟨hulen, hurange, hclen, hcbytes, hfmt, Or.inl rfl, hbody, ?_⟩
        intro _
        simpa [obs_fields] using hpu

theorem run_WF (sc : Schema) (s : PState) (ops : List POp)
    (hwf : WF sc s) (hops : ∀ op ∈ ops, pop_ok sc op) : WF sc (run sc s ops) := by
  induction ops generalizing s with
  | nil => exact hwf
  | cons op ops ih =>
    exact ih (step sc s op) (step_WF sc s op hwf (hops op (by simp)))
      (fun o ho => hops o (by simp [ho]))

theorem mk_packet_WF (sc : Schema) (d : PState → Bytes → Option (PState × Nat))
    (buf : Bytes) (s1 : PState) (hl : Nat)
    (hd : d (initState sc) buf = some (s1, hl))
    (hb : ∀ x ∈ buf, x < 256)
    (hcache : (buf.take hl).length = sc.size)
    (hdef : valsInRange sc.widths sc.defaults = true)
    (hdlen : sc.defaults.length = sc.widths.length)
    (hf : s1.fields = sc.defaults)
    (hfmtc : s1.header_format_changed = false)
    (hbody1 : s1.body_changed = false →
      s1.lazy_handler_data = none ∧ s1.bodytypename = none)
    (hbody2 : s1.body_changed = true → s1.lazy_handler_data = none →
      s1.bodytypename = none ∧ s1.body_bytes.isSome = true) :
    WF sc (mk_packet sc d buf) := by
  have hcb : ∀ x ∈ buf.take hl, x < 256 := fun x hx => hb x (List.mem_of_mem_take hx)
  have hpu : packFields sc.widths (unpackFields sc.widths (buf.take hl)) =
      some (buf.take hl) :=
    packFields_unpackFields sc.widths (buf.take hl) hcache hcb
  simp only [mk_packet]
  rw [hd]
  by_cases hbc : s1.body_changed = false
  · obtain ⟨hlz, hbt⟩ := hbody1 hbc
    simp only [hbc, reset_changed, if_pos]
    exact ⟨by simp [hf, hdlen], by simpa [hf] using hdef, hcache, hcb, by simp [hfmtc],
      Or.inr rfl, by intro _; simp [hbt],
      by intro _; simpa [obs_fields] using hpu⟩
  · have hbc' : s1.body_changed = true := by
      revert hbc; cases s1.body_changed <;> simp
    simp only [hbc', reset_changed, Bool.true_eq_false, if_false]
    refine ⟨by simp [hf, hdlen], by simpa [hf] using hdef, hcache, hcb, by simp [hfmtc],
      Or.inr rfl, ?_, by intro _; simpa [obs_fields] using hpu⟩
    intro hlz
    simpa using hbody2 hbc' (by simpa using hlz)

/-- `WF` holds for a freshly dissected UDP packet over a buffer of real
bytes covering the full header. -/
theorem mk_udp_WF (buf : Bytes) (hb : ∀ x ∈ buf, x < 256)
    (hlen : 8 ≤ buf.length) : WF udpSchema (mk_udp buf) := by
  obtain ⟨a0, a1, hsl1⟩ : ∃ a b, pySlice buf 0 2 = [a, b] := by
    apply List.length_eq_two.mp
    rw [pySlice_length]; omega
  obtain ⟨b0, b1, hsl2⟩ : ∃ a b, pySlice buf 2 4 = [a, b] := by
    apply List.length_eq_two.mp
    rw [pySlice_length]; omega
  have hsp : u16be (pySlice buf 0 2) = some (256 * a0 + a1) := by rw [hsl1]; rfl
  have hdp : u16be (pySlice buf 2 4) = some (256 * b0 + b1) := by rw [hsl2]; rfl
  have hcache : (buf.take 8).length = udpSchema.size := by
    rw [List.length_take]
    simp [udpSchema, Schema.size]
    omega
  rcases hsel : udp_select_htype udp_handler (256 * a0 + a1) (256 * b0 + b1) with _ | htype
  · have hdis : udp_dissect (initState udpSchema) buf =
        some (initState udpSchema, 8) := by
      rw [udp_select_htype_eq _ _ _ buf hsp hdp, hsel]
    exact mk_packet_WF udpSchema udp_dissect buf _ 8 hdis hb hcache (by decide)
      (by decide) rfl rfl (fun _ => ⟨rfl, rfl⟩) (by intro hx; simp [initState] at hx)
  · have hdis : udp_dissect (initState udpSchema) buf =
        some (init_handler udp_handler (initState udpSchema) htype (buf.drop 8), 8) := by
      rw [udp_select_htype_eq _ _ _ buf hsp hdp, hsel]
    have hreg : (udp_handler htype).isSome = true := by
      have hh : ([256 * a0 + a1, 256 * b0 + b1].filter
          (fun x => (udp_handler x).isSome)).head? = some htype := hsel
      have hmem : htype ∈ [256 * a0 + a1, 256 * b0 + b1].filter
          (fun x => (udp_handler x).isSome) :=
        List.mem_of_mem_head? (by rw [hh]; rfl)
      exact (List.mem_filter.mp hmem).2
    obtain ⟨cid, hcid⟩ := Option.isSome_iff_exists.mp hreg
    rcases hdrop : buf.drop 8 with _ | ⟨c0, crest⟩
    · have hih : init_handler udp_handler (initState udpSchema) htype (buf.drop 8) =
          initState udpSchema := by
        rw [hdrop]; simp [init_handler]
      rw [hih] at hdis
      exact mk_packet_WF udpSchema udp_dissect buf _ 8 hdis hb hcache (by decide)
        (by decide) rfl rfl (fun _ => ⟨rfl, rfl⟩) (by intro hx; simp [initState] at hx)
    · have hne : buf.drop 8 ≠ [] := by rw [hdrop]; simp
      have hih : init_handler udp_handler (initState udpSchema) htype (buf.drop 8) =
          { initState udpSchema with
              lazy_handler_data := some (cid, buf.drop 8), bodytypename := some cid,
              body_bytes := none, body_changed := true } := by
        simp [init_handler, hne, hcid]
      rw [hih] at hdis
      exact mk_packet_WF udpSchema udp_dissect buf _ 8 hdis hb hcache (by decide)
        (by decide) rfl rfl (by intro hx; simp at hx)
        (by intro _ hlz; simp at hlz)

/-- C7 counterexample: raise `sport` past its format range and call
`bin()`.  `_pack_header` fails and returns `None`, yet `bin()` still runs
`_reset_changed()` before the `TypeError` — leaving `header_changed` false
while the stale cache no longer packs from the current field values. -/
theorem claim_C7_counterexample :
    (run udpSchema mk_udp_kw [POp.setF UDP_SPORT 65536, POp.binOp]).header_changed =
      false ∧
    packFields udpSchema.widths
        (obs_fields udpSchema
          (run udpSchema mk_udp_kw [POp.setF UDP_SPORT 65536, POp.binOp])) ≠
      some (run udpSchema mk_udp_kw [POp.setF UDP_SPORT 65536, POp.binOp]).header_cached := by
  refine ⟨by decide, by decide⟩

/-- C7 (amended): the invariant holds as long as every field write stays
in range for the field's format — from keyword construction or a full
dissected buffer, any sequence of in-range field writes, field reads,
`bin()` calls, and body assignments leaves the cache in sync whenever
`header_changed` is false. -/
theorem claim_C7_amended_invariant (s0 : PState) (buf : Bytes) (ops : List POp)
    (hinit : s0 = mk_udp_kw ∨
      ((∀ x ∈ buf, x < 256) ∧ 8 ≤ buf.length ∧ s0 = mk_udp buf))
    (hops : ∀ op ∈ ops, pop_ok udpSchema op) :
    (run udpSchema s0 ops).header_changed = false →
      packFields udpSchema.widths (obs_fields udpSchema (run udpSchema s0 ops)) =
        some (run udpSchema s0 ops).header_cached := by
  have hwf0 : WF udpSchema s0 := by
    rcases hinit with rfl | ⟨hb, hlen, rfl⟩
    · unfold WF
      refine ⟨by decide, by decide, by decide, by decide, by decide, Or.inl rfl,
        by intro _; exact ⟨rfl, rfl⟩, ?_⟩
      intro _
      decide
    · exact mk_udp_WF buf hb hlen
  exact (run_WF udpSchema s0 ops hwf0 hops).2.2.2.2.2.2.2

theorem claim_C7_witness :
    (∀ op ∈ [POp.setF UDP_SPORT 7, POp.binOp], pop_ok udpSchema op) ∧
    ((run udpSchema mk_udp_kw [POp.setF UDP_SPORT 7, POp.binOp]).header_changed = false →
      packFields udpSchema.widths
          (obs_fields udpSchema (run udpSchema mk_udp_kw [POp.setF UDP_SPORT 7, POp.binOp])) =
        some (run udpSchema mk_udp_kw [POp.setF UDP_SPORT 7, POp.binOp]).header_cached) :=
  ⟨by intro op hop; fin_cases hop
      · exact ⟨by decide, by decide⟩
      · trivial,
   claim_C7_amended_invariant mk_udp_kw [] [POp.setF UDP_SPORT 7, POp.binOp]
     (Or.inl rfl)
     (by intro op hop; fin_cases hop
         · exact ⟨by decide, by decide⟩
         · trivial)⟩

theorem utf8EncodeChar_ascii (c : Nat) (hc : c < 128) : utf8EncodeChar c = [c] := by
  simp [utf8EncodeChar, hc]

theorem utf8Encode_ascii (s : List Nat) (hs : ∀ x ∈ s, x < 128) :
    utf8Encode s = s := by
  induction s with
  | nil => rfl
  | cons c cs ih =>
    have hrec : (cs.map utf8EncodeChar).flatten = cs :=
      ih (fun x hx => hs x (by simp [hx]))
    rw [utf8Encode, List.map_cons, List.flatten_cons,
      utf8EncodeChar_ascii c (hs c (by simp)), hrec]
    rfl

theorem utf8DecodeChar1_ascii (c : Nat) (cs : List Nat) (hc : c < 128) :
    utf8DecodeChar1 (c :: cs) = some (c, cs) := by
  simp [utf8DecodeChar1, hc]

theorem utf8DecodeF_ascii (fuel : Nat) (b : List Nat) (hf : b.length ≤ fuel)
    (hb : ∀ x ∈ b, x < 128) : utf8DecodeF fuel b = some b := by
  induction fuel generalizing b with
  | zero =>
    have hb0 : b = [] := List.eq_nil_of_length_eq_zero (by omega)
    subst hb0; rfl
  | succ fuel ih =>
    cases b with
    | nil => rfl
    | cons c cs =>
      have hc : c < 128 := hb c (by simp)
      rw [utf8DecodeF, utf8DecodeChar1_ascii c cs hc]
      show Option.map (fun x => c :: x) (utf8DecodeF fuel cs) = some (c :: cs)
      rw [ih cs (by simp at hf; omega) (fun x hx => hb x (by simp [hx]))]
      rfl
      simp

theorem utf8Decode_ascii (b : List Nat) (hb : ∀ x ∈ b, x < 128) :
    utf8Decode b = some b :=
  utf8DecodeF_ascii b.length b (le_refl _) hb

theorem pySplit_no_sep (sep : Nat) (p : List Nat) (hp : sep ∉ p) :
    pySplit sep p = [p] := by
  induction p with
  | nil => rfl
  | cons c cs ih =>
    have hc : ¬c = sep := fun h => hp (by rw [h]; exact List.mem_cons_self ..)
    have hcs : sep ∉ cs := fun h => hp (List.mem_cons_of_mem _ h)
    simp [pySplit, hc, ih hcs]

theorem pySplit_append (sep : Nat) (p rest : List Nat) (hp : sep ∉ p) :
    pySplit sep (p ++ sep :: rest) = p :: pySplit sep rest := by
  induction p with
  | nil => simp [pySplit]
  | cons c cs ih =>
    have hc : ¬c = sep := fun h => hp (by rw [h]; exact List.mem_cons_self ..)
    have hcs : sep ∉ cs := fun h => hp (List.mem_cons_of_mem _ h)
    simp [pySplit, hc, ih hcs]

theorem pySplit_pyJoin (sep : Nat) (parts : List (List Nat)) (hne : parts ≠ [])
    (hp : ∀ p ∈ parts, sep ∉ p) : pySplit sep (pyJoin [sep] parts) = parts := by
  induction parts with
  | nil => cases hne rfl
  | cons p ps ih =>
    cases ps with
    | nil => exact pySplit_no_sep sep p (hp p (by simp))
    | cons q qs =>
      have hassoc : pyJoin [sep] (p :: q :: qs) = p ++ sep :: pyJoin [sep] (q :: qs) := by
        rw [pyJoin]; simp
      rw [hassoc, pySplit_append sep p _ (hp p (by simp)),
        ih (by simp) (fun r hr => hp r (by simp [hr]))]

theorem pySplit_pyJoin_dot (sep : Nat) (parts : List (List Nat)) (hne : parts ≠ [])
    (hp : ∀ p ∈ parts, sep ∉ p) :
    pySplit sep (pyJoin [sep] parts ++ [sep]) = parts ++ [[]] := by
  induction parts with
  | nil => cases hne rfl
  | cons p ps ih =>
    cases ps with
    | nil =>
      have h1 : pyJoin [sep] [p] ++ [sep] = p ++ sep :: [] := by simp [pyJoin]
      rw [h1, pySplit_append sep p [] (hp p (by simp))]
      rfl
    | cons q qs =>
      have hassoc : pyJoin [sep] (p :: q :: qs) ++ [sep] =
          p ++ sep :: (pyJoin [sep] (q :: qs) ++ [sep]) := by
        rw [pyJoin]; simp
      rw [hassoc, pySplit_append sep p _ (hp p (by simp)),
        ih (by simp) (fun r hr => hp r (by simp [hr]))]
      rfl

theorem hexVal_hexDigit (d : Nat) (hd : d < 16) : hexVal (hexDigit d) = some d := by
  by_cases h : d < 10
  · rw [hexDigit, if_pos h, hexVal, if_pos (by omega)]
    simp
  · rw [hexDigit, if_neg h, hexVal, if_neg (by omega), if_pos (by omega)]
    simp

theorem hexDigit_ne_colon (d : Nat) (hd : d < 16) : hexDigit d ≠ 58 := by
  rw [hexDigit]; split_ifs <;> omega

theorem colon_not_mem_hex2 (n : Nat) : 58 ∉ hex2 n := by
  intro hmem
  simp [hex2] at hmem
  rcases hmem with h | h
  · exact hexDigit_ne_colon _ (by omega) h.symm
  · exact hexDigit_ne_colon _ (by omega) h.symm

theorem pyFromHex_hex2 (n : Nat) (hn : n < 256) : pyFromHex (hex2 n) = some [n] := by
  have ha := hexVal_hexDigit (n / 16 % 16) (by omega)
  have hb := hexVal_hexDigit (n % 16) (by omega)
  have hmod : 16 * (n / 16 % 16) + n % 16 = n := by omega
  simp [hex2, pyFromHex, ha, hb, hmod]

theorem fromhex_parts_hex2 (b : Bytes) (hb : ∀ x ∈ b, x < 256) :
    fromhex_parts (b.map hex2) = some (b.map (fun n => [n])) := by
  induction b with
  | nil => rfl
  | cons n ns ih =>
    simp [fromhex_parts, pyFromHex_hex2 n (hb n (by simp)),
      ih (fun x hx => hb x (by simp [hx]))]

theorem flatten_singletons (b : List Nat) : (b.map (fun n => [n])).flatten = b := by
  induction b with
  | nil => rfl
  | cons n ns ih => simp [ih]

/-- MAC byte-side round-trip. -/
theorem mac_roundtrip (b : Bytes) (hlen : b.length = 6) (hb : ∀ x ∈ b, x < 256) :
    (mac_bytes_to_str b).bind mac_str_to_bytes = some b := by
  rw [mac_bytes_to_str, if_pos hlen]
  rw [Option.some_bind, mac_str_to_bytes]
  have hmapne : b.map hex2 ≠ [] := by
    intro h
    have hl := congrArg List.length h
    simp [hlen] at hl
  rw [pySplit_pyJoin 58 (b.map hex2) hmapne
    (fun p hp => by obtain ⟨n, _, rfl⟩ := List.mem_map.mp hp; exact colon_not_mem_hex2 n)]
  rw [fromhex_parts_hex2 b hb]
  simp [flatten_singletons]

set_option maxRecDepth 4096 in
theorem pyInt_decStr_byte : ∀ n, n < 256 → pyInt (decStr n) = some n := by decide

set_option maxRecDepth 4096 in
theorem decStr_no_dot : ∀ n, n < 256 → 46 ∉ decStr n := by decide

theorem int_parts_decStr (b : Bytes) (hb : ∀ x ∈ b, x < 256) :
    int_parts (b.map decStr) = some b := by
  induction b with
  | nil => rfl
  | cons n ns ih =>
    simp [int_parts, pyInt_decStr_byte n (hb n (by simp)),
      ih (fun x hx => hb x (by simp [hx]))]

/-- IPv4 byte-side round-trip. -/
theorem ip4_roundtrip (b0 b1 b2 b3 : Nat)
    (h0 : b0 < 256) (h1 : b1 < 256) (h2 : b2 < 256) (h3 : b3 < 256) :
    (ip4_bytes_to_str [b0, b1, b2, b3]).bind ip4_str_to_bytes =
      some [b0, b1, b2, b3] := by
  have hb : ∀ x ∈ [b0, b1, b2, b3], x < 256 := by
    intro x hx
    simp only [List.mem_cons, List.not_mem_nil, or_false] at hx
    rcases hx with rfl | rfl | rfl | rfl <;> assumption
  rw [ip4_bytes_to_str,
    if_pos (show ([b0, b1, b2, b3] : Bytes).length = 4 from rfl),
    Option.some_bind, ip4_str_to_bytes]
  rw [pySplit_pyJoin 46 _ (by simp)
    (fun p hp => by
      obtain ⟨n, hn, rfl⟩ := List.mem_map.mp hp
      exact decStr_no_dot n (hb n hn))]
  rw [int_parts_decStr _ hb]
  simp [h0, h1, h2, h3]

theorem dns_decode_loop_wire (labels : List (List Nat)) :
    ∀ fuel pre, (∀ l ∈ labels, dns_label_ok l) →
      (labels.map (fun l => l.length :: l)).flatten.length + 1 ≤ fuel →
      dns_decode_loop fuel
        (pre ++ (labels.map (fun l => l.length :: l)).flatten ++ [0])
        (pre.length + 1) = some labels := by
  induction labels with
  | nil =>
    intro fuel pre _ hfuel
    cases fuel with
    | zero => simp at hfuel
    | succ f =>
      rw [dns_decode_loop, if_neg (by simp)]
  | cons l ls ih =>
    intro fuel pre hok hfuel
    obtain ⟨hlne, hl127, hlc⟩ := hok l (by simp)
    cases fuel with
    | zero => simp at hfuel
    | succ f =>
      obtain ⟨R, hR⟩ :
          ∃ R, (ls.map (fun q : List Nat => q.length :: q)).flatten = R :=
        ⟨_, rfl⟩
      have hmap : ((l :: ls).map (fun q : List Nat => q.length :: q)).flatten =
          (l.length :: l) ++ R := by
        rw [← hR]; simp
      rw [hmap] at hfuel ⊢
      have hcond : pre.length + 1 <
          (pre ++ ((l.length :: l) ++ R) ++ [0]).length := by
        simp
      have hgd : (pre ++ ((l.length :: l) ++ R) ++ [0]).getD pre.length 0 =
          l.length := by
        rw [show pre ++ ((l.length :: l) ++ R) ++ [0] =
          pre ++ (l.length :: (l ++ (R ++ [0]))) from by simp]
        rw [List.getD_eq_getElem?_getD, List.getElem?_append_right (le_refl _)]
        simp
      have hslice : pySlice (pre ++ ((l.length :: l) ++ R) ++ [0])
          (pre.length + 1) (pre.length + 1 + l.length) = l := by
        show ((pre ++ ((l.length :: l) ++ R) ++ [0]).take
            (pre.length + 1 + l.length)).drop (pre.length + 1) = l
        rw [show pre ++ ((l.length :: l) ++ R) ++ [0] =
          ((pre ++ [l.length]) ++ l) ++ (R ++ [0]) from by simp]
        rw [List.take_left' (by simp; omega), List.drop_left' (by simp)]
      have hrec : dns_decode_loop f (pre ++ ((l.length :: l) ++ R) ++ [0])
          (pre.length + 1 + l.length + 1) = some ls := by
        have h1 := ih f (pre ++ [l.length] ++ l)
          (fun r hr => hok r (by simp [hr]))
          (by rw [hR]; simp at hfuel; omega)
        rw [hR] at h1
        have hname : (pre ++ [l.length] ++ l) ++ R ++ [0] =
            pre ++ ((l.length :: l) ++ R) ++ [0] := by
          simp
        have hoff : (pre ++ [l.length] ++ l).length + 1 =
            pre.length + 1 + l.length + 1 := by
          simp only [List.length_append, List.length_cons, List.length_nil]
        rw [hname, hoff] at h1
        exact h1
      rw [dns_decode_loop, if_pos hcond]
      simp only [Nat.add_sub_cancel]
      rw [hgd, hslice, utf8Decode_ascii l (fun c hc => (hlc c hc).1), hrec]
      rfl

/-- `dns_name_decode` on a well-formed wire name: the dot-joined labels
with a trailing dot. -/
theorem dns_name_decode_wire (labels : List (List Nat))
    (hok : ∀ l ∈ labels, dns_label_ok l) :
    dns_name_decode (dns_wire labels) = some (dns_text labels) := by
  rw [dns_name_decode]
  have h1 := dns_decode_loop_wire labels
    ((dns_wire labels).length + 1) [] hok
    (by
      simp only [dns_wire, List.length_append, List.length_cons, List.length_nil]
      omega)
  simp only [List.nil_append, List.length_nil, Nat.zero_add] at h1
  simp only [dns_wire] at h1 ⊢
  rw [h1]
  rfl

theorem not_dot_mem_of_ok (labels : List (List Nat))
    (hok : ∀ l ∈ labels, dns_label_ok l) : ∀ p ∈ labels, 46 ∉ p := by
  intro p hp hmem
  exact ((hok p hp).2.2 46 hmem).2 rfl

/-- `dns_name_encode` on the canonical textual form: back to the wire. -/
theorem dns_name_encode_text (labels : List (List Nat))
    (hok : ∀ l ∈ labels, dns_label_ok l) :
    dns_name_encode (dns_text labels) = dns_wire labels := by
  rcases labels with _ | ⟨l, ls⟩
  · rfl
  · rw [dns_name_encode, dns_text]
    rw [pySplit_pyJoin_dot 46 (l :: ls) (by simp) (not_dot_mem_of_ok _ hok)]
    have hfilter : ((l :: ls) ++ [[]]).filter (fun p => p ≠ []) = l :: ls := by
      rw [List.filter_append]
      have h2 : ([[]] : List (List Nat)).filter (fun p => p ≠ []) = [] := by simp
      have h1 : (l :: ls).filter (fun p => p ≠ []) = l :: ls :=
        List.filter_eq_self.mpr
          (fun a ha => decide_eq_true (hok a ha).1)
      rw [h1, h2, List.append_nil]
    rw [hfilter]
    have hmap : (l :: ls).map utf8Encode = l :: ls := by
      rw [List.map_congr_left
        (fun x hx => utf8Encode_ascii x (fun c hc => ((hok x hx).2.2 c hc).1))]
      exact List.map_id _
    rw [hmap, dns_wire]
    have hmap2 : (l :: ls).map (fun label => utf8EncodeChar label.length ++ label)
        = (l :: ls).map (fun q : List Nat => q.length :: q) := by
      apply List.map_congr_left
      intro lb hlb
      show utf8EncodeChar lb.length ++ lb = lb.length :: lb
      rw [utf8EncodeChar_ascii lb.length (by have := (hok lb hlb).2.1; omega)]
      rfl
    rw [hmap2]

/-- C9 counterexample: the DNS codecs are not mutually inverse on textual
values — decoding the encoding of `"www.example.com"` yields
`"www.example.com."`, with a trailing dot. -/
theorem claim_C9_counterexample :
    dns_name_decode (dns_name_encode www_str) = some (www_str ++ [46]) ∧
    www_str ++ [46] ≠ www_str := by
  refine ⟨by decide, by decide⟩

/-- C9 (amended): the codecs are pure functions whose byte-side round-trip
holds — MAC over any 6 bytes, IPv4 over any 4 bytes, DNS over any
well-formed wire name — while the textual-side round-trip holds on
canonical forms only (for DNS: the dot-terminated decode image; a name
without the trailing dot gains one, see the counterexample). -/
theorem claim_C9_amended_codecs :
    (∀ b : Bytes, b.length = 6 → (∀ x ∈ b, x < 256) →
      (mac_bytes_to_str b).bind mac_str_to_bytes = some b) ∧
    (∀ b0 b1 b2 b3 : Nat, b0 < 256 → b1 < 256 → b2 < 256 → b3 < 256 →
      (ip4_bytes_to_str [b0, b1, b2, b3]).bind ip4_str_to_bytes =
        some [b0, b1, b2, b3]) ∧
    (∀ labels : List (List Nat), (∀ l ∈ labels, dns_label_ok l) →
      dns_name_decode (dns_wire labels) = some (dns_text labels) ∧
      dns_name_encode ((dns_name_decode (dns_wire labels)).getD []) =
        dns_wire labels ∧
      dns_name_decode (dns_name_encode (dns_text labels)) =
        some (dns_text labels)) := by
  refine ⟨mac_roundtrip, ip4_roundtrip, ?_⟩
  intro labels hok
  have hdec := dns_name_decode_wire labels hok
  have henc := dns_name_encode_text labels hok
  refine ⟨hdec, ?_, ?_⟩
  · rw [hdec]
    exact henc
  · rw [henc]
    exact hdec

theorem claim_C9_witness :
    (([0xAA, 0xBB, 0x0C, 0, 255, 1] : Bytes).length = 6 ∧
      (mac_bytes_to_str [0xAA, 0xBB, 0x0C, 0, 255, 1]).bind mac_str_to_bytes =
        some [0xAA, 0xBB, 0x0C, 0, 255, 1]) ∧
    (ip4_bytes_to_str [127, 0, 0, 1]).bind ip4_str_to_bytes =
      some [127, 0, 0, 1] ∧
    (dns_name_decode (dns_wire [[119, 119, 119], [99, 111, 109]]) =
      some (dns_text [[119, 119, 119], [99, 111, 109]]) ∧
      dns_name_encode ((dns_name_decode
          (dns_wire [[119, 119, 119], [99, 111, 109]])).getD []) =
        dns_wire [[119, 119, 119], [99, 111, 109]] ∧
      dns_name_decode (dns_name_encode
          (dns_text [[119, 119, 119], [99, 111, 109]])) =
        some (dns_text [[119, 119, 119], [99, 111, 109]])) :=
  ⟨⟨by decide,
    claim_C9_amended_codecs.1 [0xAA, 0xBB, 0x0C, 0, 255, 1] (by decide) (by decide)⟩,
   claim_C9_amended_codecs.2.1 127 0 0 1 (by decide) (by decide) (by decide) (by decide),
   claim_C9_amended_codecs.2.2 [[119, 119, 119], [99, 111, 109]]
     (by
       intro x hx
       simp only [List.mem_cons, List.not_mem_nil, or_false] at hx
       rcases hx with rfl | rfl
       · exact ⟨by decide, by decide, by decide⟩
       · exact ⟨by decide, by decide, by decide⟩)⟩

end Pypacker
